import Mathlib

/-!
Verification of the btor2-opt core against its specification.

The development shallowly embeds the Python sources (`src/btoropt/program.py`,
`src/btoropt/parser.py`, `src/btormiter.py`, the passes under
`src/btoropt/passes/` and the pipeline fragment of `src/btoropt/__main__.py`).

Python instruction objects live on a heap (arena): an object is a `Node`,
an object reference is its index in the heap.  Operand lists hold either
object references or raw int/str values, exactly as the Python operand
lists do.  Python exceptions (AssertionError, TypeError, AttributeError,
IndexError, ValueError, NameError, `exit(1)`) are modelled with an
`Except PyErr` result.  Python `==` on instruction objects is object
identity, hence reference equality of heap indices in this model.
-/

/-- A Python exception or hard exit, as raised by the embedded code. -/
inductive PyErr where
  | assertFail (msg : String)
  | typeError (msg : String)
  | attrError (msg : String)
  | nameError (msg : String)
  | valueError
  | indexError
  | stopIteration
  | exitErr (msg : String)
deriving DecidableEq, Repr

/-- An element of a Python operand list: an object reference (heap index)
or a raw int / str value (as stored by Uext/Sext), or Python None
(produced by `dict.get` misses during deferred resolution). -/
inductive Opnd where
  | ref (q : Nat)
  | intLit (n : Int)
  | strLit (s : String)
  | pyNone
deriving DecidableEq, Repr

/-- A Python `Instruction` object.  `tag` is the `inst` string of the class;
the remaining fields are the union of the attributes the embedded code
reads (`typ`/`width` of Sort, `name` of Input/State, `value` of the
constants, `highbit`/`lowbit`/`width` of Slice, `width` of Uext/Sext).
Attributes never read by the embedded operations (`sid`, `stid`,
`renaming`, `aliasid`) are omitted. -/
structure Node where
  lid : Int := 0
  tag : String := ""
  ops : List Opnd := []
  typ : String := ""
  width : Int := 0
  name : String := ""
  value : Int := 0
  highbit : Int := 0
  lowbit : Int := 0
  isStd : Bool := true
deriving DecidableEq, Repr

/-- The Python object heap: a node's index is its identity. -/
def Heap := List Node

instance : DecidableEq Heap := by unfold Heap; infer_instance

/-- Dereference an object; indices produced by the embedded code are
always in range, so the default node is never observed there. -/
def nodeOf (h : Heap) (q : Nat) : Node := (List.get? h q).getD {}

def lidOf (h : Heap) (q : Nat) : Int := (nodeOf h q).lid

def tagOf (h : Heap) (q : Nat) : String := (nodeOf h q).tag

/-- Allocate a new object, returning the extended heap and its reference. -/
def alloc (h : Heap) (n : Node) : Heap × Nat :=
  (List.append h [n], List.length h)

/-- `x.lid = v` (in-place mutation through a shared reference). -/
def setLid (h : Heap) (q : Nat) (v : Int) : Heap :=
  List.set h q { nodeOf h q with lid := v }

/-- All supported btor2 instruction tags (`tags` in parser.py). -/
def tags : List String :=
  ["sort", "input", "output", "bad", "constraint", "zero",
   "one", "ones", "constd", "consth", "const", "state",
   "init", "next", "slice", "ite", "implies", "iff",
   "add", "sub", "mul", "sdiv", "udiv", "smod", "sll",
   "srl", "sra", "and", "or", "xor", "concat",
   "not", "inc", "dec", "neg", "redor", "redxor", "redand",
   "eq", "neq", "ugt", "sgt", "ugte", "sgte", "ult",
   "slt", "ulte", "slte", "uext", "sext"]

/-- All legal sort types (`sort_tags` in parser.py). -/
def sort_tags : List String := ["bitvector", "bitvec", "array"]

/-- Python `str.split(" ")`: splits at every single space, keeping empty
fields between consecutive separators (recursion on the character list,
so that it evaluates inside the kernel). -/
def pySplitAux : List Char → List Char → List String
  | [], acc => [String.mk acc.reverse]
  | c :: rest, acc =>
    if c = ' ' then String.mk acc.reverse :: pySplitAux rest []
    else pySplitAux rest (c :: acc)

def pySplit (s : String) : List String := pySplitAux s.data []

/-- Python `str.strip()`: removes leading and trailing whitespace. -/
def pyStrip (s : String) : String :=
  String.mk (((s.data.dropWhile Char.isWhitespace).reverse.dropWhile Char.isWhitespace).reverse)

/-- Digit value in base `b` (supports the bases 2, 10 and 16 used by the code). -/
def digitVal (b : Nat) (c : Char) : Option Nat :=
  let v : Nat :=
    if '0' ≤ c ∧ c ≤ '9' then c.toNat - '0'.toNat
    else if 'a' ≤ c ∧ c ≤ 'f' then c.toNat - 'a'.toNat + 10
    else if 'A' ≤ c ∧ c ≤ 'F' then c.toNat - 'A'.toNat + 10
    else 99
  if v < b then some v else none

/-- Python `int(tok, b)` for b = 2 or 16. -/
def pyIntBase (b : Nat) (s : String) : Except PyErr Int :=
  let core (t : List Char) : Except PyErr Int :=
    match t with
    | [] => .error .valueError
    | _ =>
      List.foldlM
        (fun acc c =>
          match digitVal b c with
          | some v => Except.ok (acc * (b : Int) + (v : Int))
          | none => Except.error PyErr.valueError)
        (0 : Int) t
  match s.toList with
  | '-' :: t => do
      let v ← core t
      .ok (-v)
  | t => core t

/-- Python `int(tok)` on a token (ValueError on non-numeric text). -/
def pyInt (s : String) : Except PyErr Int := pyIntBase 10 s

/-- Python `lst[i]` with negative-index wraparound and IndexError. -/
def pyIndex {α : Type} (l : List α) (i : Int) : Except PyErr α :=
  let j : Int := if i < 0 then i + (List.length l : Int) else i
  if hlt : 0 ≤ j ∧ j.toNat < List.length l then
    .ok (l.get ⟨j.toNat, hlt.2⟩)
  else
    .error .indexError

/-- Structural comparison of two heap objects, as performed by
`Instruction.eq` and its overrides in program.py.  The base comparison is
`self.operands == inst.operands and self.inst == inst.inst`; a Python
operand-list `==` compares object elements by identity (reference
equality here) and raw values by value.  The override used is the one of
`self`'s class, selected here by `self`'s tag; overrides only read the
extra attributes after the base comparison succeeds, in which case both
tags coincide. -/
def eqNode (a b : Node) : Bool :=
  let base := a.ops == b.ops && a.tag == b.tag
  if a.tag == "sort" then base && a.typ == b.typ && a.width == b.width
  else if a.tag == "input" || a.tag == "state" then base && a.name == b.name
  else if a.tag == "constd" || a.tag == "consth" || a.tag == "const" then
    base && a.value == b.value
  else if a.tag == "slice" then base && a.highbit == b.highbit && a.lowbit == b.lowbit
  else base

/-- `self.eq(x)` where `x` is an element of an operand list.  A raw
int/str/None element has no `operands` attribute, so the base comparison
raises AttributeError on it. -/
def pyEq (h : Heap) (self : Nat) (x : Opnd) : Except PyErr Bool :=
  match x with
  | .ref q => .ok (eqNode (nodeOf h self) (nodeOf h q))
  | _ => .error (.attrError "object has no attribute operands")

/-- `self.isin(p)` from program.py: first structural match wins. -/
def pyIsin (h : Heap) (self : Nat) (p : List Opnd) : Except PyErr Bool :=
  match p with
  | [] => .ok false
  | x :: rest => do
      let b ← pyEq h self x
      if b then .ok true else pyIsin h self rest

/-- `get_inst(p, lid)` from program.py: builds the list of instructions
with the given lid and returns its head, or None if it is empty. -/
def get_inst (h : Heap) (p : List Nat) (lid : Int) : Option Nat :=
  let ops := List.filter (fun op => lidOf h op == lid) p
  match ops with
  | [] => none
  | op :: _ => some op

/-- `Parser.find_inst`: safe wrapper around `get_inst` that asserts the id
is declared. -/
def find_inst (h : Heap) (p : List Nat) (id : Int) : Except PyErr Nat :=
  match get_inst h p id with
  | some q => .ok q
  | none => .error (.assertFail ("Undeclared instruction used with id: " ++ toString id))

/-! ## Instruction constructors (classes of program.py)

Each `*_mk` mirrors the `__init__` of the corresponding class: the operand
list it stores and the extra attributes it sets.  The binary-operation
classes (Add .. Slte) all store `[sort, op1, op2]` and differ only in
their tag, so they share one builder. -/

def Sort_mk (lid : Int) (typ : String) (width : Int) : Node :=
  { lid := lid, tag := "sort", typ := typ, width := width }

def Input_mk (lid : Int) (sort : Nat) (name : String) : Node :=
  { lid := lid, tag := "input", ops := [.ref sort], name := name }

def Bad_mk (lid : Int) (cond : Nat) : Node :=
  { lid := lid, tag := "bad", ops := [.ref cond] }

def Constraint_mk (lid : Int) (cond : Nat) : Node :=
  { lid := lid, tag := "constraint", ops := [.ref cond] }

def Zero_mk (lid : Int) (sort : Nat) : Node :=
  { lid := lid, tag := "zero", ops := [.ref sort] }

def One_mk (lid : Int) (sort : Nat) : Node :=
  { lid := lid, tag := "one", ops := [.ref sort] }

def Ones_mk (lid : Int) (sort : Nat) : Node :=
  { lid := lid, tag := "ones", ops := [.ref sort] }

/-- Unary classes Not/Inc/Dec/Neg/Redor/Redxor/Redand: `[sort, op]`. -/
def Unop_mk (tag : String) (lid : Int) (sort op : Nat) : Node :=
  { lid := lid, tag := tag, ops := [.ref sort, .ref op] }

/-- Constd/Consth/Const: `[sort]` plus a `value` attribute. -/
def Constant_mk (tag : String) (lid : Int) (sort : Nat) (value : Int) : Node :=
  { lid := lid, tag := tag, ops := [.ref sort], value := value }

def State_mk (lid : Int) (sort : Nat) (name : String) : Node :=
  { lid := lid, tag := "state", ops := [.ref sort], name := name }

def Init_mk (lid : Int) (sort state constval : Nat) : Node :=
  { lid := lid, tag := "init", ops := [.ref sort, .ref state, .ref constval] }

def Next_mk (lid : Int) (sort state next : Nat) : Node :=
  { lid := lid, tag := "next", ops := [.ref sort, .ref state, .ref next] }

def Slice_mk (lid : Int) (sort op : Nat) (highbit lowbit : Int) : Node :=
  { lid := lid, tag := "slice", ops := [.ref sort, .ref op],
    highbit := highbit, lowbit := lowbit, width := highbit - lowbit + 1 }

def Ite_mk (lid : Int) (sort cond t f : Nat) : Node :=
  { lid := lid, tag := "ite", ops := [.ref sort, .ref cond, .ref t, .ref f] }

/-- Implies/Iff and the binary operations Add .. Slte: `[sort, op1, op2]`. -/
def Binop_mk (tag : String) (lid : Int) (sort op1 op2 : Nat) : Node :=
  { lid := lid, tag := tag, ops := [.ref sort, .ref op1, .ref op2] }

/-- Uext/Sext store the raw width and name in the operand list. -/
def Ext_mk (tag : String) (lid : Int) (sort op : Nat) (width : Int) (name : String) : Node :=
  { lid := lid, tag := tag, ops := [.ref sort, .ref op, .intLit width, .strLit name],
    width := width, name := name }

/-! ## The parser (parser.py) -/

/-- `Parser.defer` builds placeholders with `Instruction(int(id))`, but
`Instruction.__init__` requires the `inst` argument, so the call raises
TypeError before any placeholder exists. -/
def defer_fail {α : Type} : Except PyErr α :=
  .error (.typeError "Instruction init missing 1 required positional argument: inst")

/-- `self.defer(inst[2])[0] if deferred else self.find_inst(int(inst[2]))`. -/
def resolve1 (h : Heap) (p : List Nat) (deferred : Bool) (tok : String) : Except PyErr Nat :=
  if deferred then defer_fail
  else do find_inst h p (← pyInt tok)

/-- `tuple(self.defer(inst[2:k])) if deferred else
tuple(map(lambda i: self.find_inst(int(i)), inst[2:k]))`. -/
def resolveMany (h : Heap) (p : List Nat) (deferred : Bool) (toks : List String) :
    Except PyErr (List Nat) :=
  if deferred then defer_fail
  else toks.mapM (fun t => do find_inst h p (← pyInt t))

/-- `Parser.parse_inst`: parses one line against the already-parsed prefix
`(h, p)`; returns `none` for a comment line.  Deferred resolution always
fails with TypeError (see `defer_fail`); the `output` case fails with
TypeError because it calls `Output(lid, out, name)` while
`Output.__init__` accepts only `(lid, out)`; the `srem`/`urem` cases are
unreachable because those tags are missing from `tags`, and would raise
NameError anyway since no Srem/Urem class exists. -/
def parse_inst (h : Heap) (p : List Nat) (line : String) (deferred : Bool) :
    Except PyErr (Option Node) := do
  let inst := pySplit line
  let t0 := inst.headD ""
  if t0 == ";" then return none
  let lid ← pyInt t0
  let tag ← match inst.get? 1 with
    | some t => pure t
    | none => Except.error PyErr.indexError
  if !(tags.contains tag) then
    Except.error (.assertFail ("Unsupported operation type: " ++ tag ++ " in " ++ line))
  else
  match tag with
  | "sort" => do
    if inst.length < 4 then
      Except.error (.assertFail ("sort instruction must be of the form: <lid> sort bitvector-or-array <width>. Found: " ++ line))
    else
    let t2 := inst.getD 2 ""
    if !(sort_tags.contains t2) then
      Except.error (.assertFail ("sort must be of type bitvector or array! Found: " ++ t2))
    else do
    let w ← pyInt (inst.getD 3 "")
    return some (Sort_mk lid t2 w)
  | "input" => do
    if inst.length < 3 then
      Except.error (.assertFail ("input instruction must be of the form: <lid> input <sid> [<name>]. Found: " ++ line))
    else do
    let sort ← resolve1 h p deferred (inst.getD 2 "")
    let name := if inst.length >= 4 then pyStrip (inst.getD 3 "") else "input_" ++ t0
    return some (Input_mk lid sort name)
  | "output" => do
    if inst.length < 3 then
      Except.error (.assertFail ("output instruction must be of the form: <lid> output <opid> [name]. Found: " ++ line))
    else do
    let _out ← resolve1 h p deferred (inst.getD 2 "")
    let _name := if inst.length >= 4 then pyStrip (inst.getD 3 "") else "output_" ++ t0
    -- Output(lid, out, name): Output.__init__ accepts only (lid, out)
    Except.error (.typeError "Output init takes 3 positional arguments but 4 were given")
  | "bad" => do
    if inst.length < 3 then
      Except.error (.assertFail ("sort instruction must be of the form: <lid> bad <opid>. Found: " ++ line))
    else do
    let cond ← resolve1 h p deferred (inst.getD 2 "")
    return some (Bad_mk lid cond)
  | "constraint" => do
    if inst.length < 3 then
      Except.error (.assertFail ("sort instruction must be of the form: <lid> constraint <opid>. Found: " ++ line))
    else do
    let cond ← resolve1 h p deferred (inst.getD 2 "")
    return some (Constraint_mk lid cond)
  | "zero" => do
    if inst.length < 3 then
      Except.error (.assertFail ("sort instruction must be of the form: <lid> zero <sid>. Found: " ++ line))
    else do
    let sort ← resolve1 h p deferred (inst.getD 2 "")
    return some (Zero_mk lid sort)
  | "one" => do
    if inst.length < 3 then
      Except.error (.assertFail ("sort instruction must be of the form: <lid> one <sid>. Found: " ++ line))
    else do
    let sort ← resolve1 h p deferred (inst.getD 2 "")
    return some (One_mk lid sort)
  | "ones" => do
    if inst.length < 3 then
      Except.error (.assertFail ("sort instruction must be of the form: <lid> ones <sid>. Found: " ++ line))
    else do
    let sort ← resolve1 h p deferred (inst.getD 2 "")
    return some (Ones_mk lid sort)
  | "constd" => do
    if inst.length < 4 then
      Except.error (.assertFail ("sort instruction must be of the form: <lid> constd <sid> <value>. Found: " ++ line))
    else do
    let sort ← resolve1 h p deferred (inst.getD 2 "")
    let value ← pyInt (inst.getD 3 "")
    return some (Constant_mk "constd" lid sort value)
  | "consth" => do
    if inst.length < 4 then
      Except.error (.assertFail ("sort instruction must be of the form: <lid> consth <sid> <value>. Found: " ++ line))
    else do
    let sort ← resolve1 h p deferred (inst.getD 2 "")
    let value ← pyIntBase 16 (inst.getD 3 "")
    return some (Constant_mk "consth" lid sort value)
  | "const" => do
    if inst.length < 4 then
      Except.error (.assertFail ("sort instruction must be of the form: <lid> const <sid> <value>. Found: " ++ line))
    else do
    let sort ← resolve1 h p deferred (inst.getD 2 "")
    let value ← pyIntBase 2 (inst.getD 3 "")
    return some (Constant_mk "const" lid sort value)
  | "state" => do
    if inst.length < 3 then
      Except.error (.assertFail ("state instruction must be of the form: <lid> state <sid> [<name>]. Found: " ++ line))
    else do
    let sort ← resolve1 h p deferred (inst.getD 2 "")
    let name := if inst.length >= 4 then pyStrip (inst.getD 3 "") else "state_" ++ t0
    return some (State_mk lid sort name)
  | "init" => do
    if inst.length < 5 then
      Except.error (.assertFail ("sort instruction must be of the form: <lid> init <sid> <stateid> <valueid>. Found: " ++ line))
    else do
    let rs ← resolveMany h p deferred ((inst.drop 2).take 3)
    match rs with
    | [sort, state, val] => return some (Init_mk lid sort state val)
    | _ => Except.error .valueError
  | "next" => do
    if inst.length < 5 then
      Except.error (.assertFail ("sort instruction must be of the form: <lid> next <sid> <stateid> <nextid>. Found: " ++ line))
    else do
    let rs ← resolveMany h p deferred ((inst.drop 2).take 3)
    match rs with
    | [sort, state, next] => return some (Next_mk lid sort state next)
    | _ => Except.error .valueError
  | "slice" => do
    if inst.length < 6 then
      Except.error (.assertFail ("slice instruction must be of the form: <lid> slice <sid> <opid> <highbit> <lowbit>. Found: " ++ line))
    else do
    let rs ← resolveMany h p deferred ((inst.drop 2).take 2)
    let highbit ← pyInt (inst.getD 4 "")
    let lowbit ← pyInt (inst.getD 5 "")
    match rs with
    | [sort, operand] => return some (Slice_mk lid sort operand highbit lowbit)
    | _ => Except.error .valueError
  | "ite" => do
    if inst.length < 6 then
      Except.error (.assertFail ("sort instruction must be of the form: <lid> ite <sid> <condid> <tid> <fid>. Found: " ++ line))
    else do
    let rs ← resolveMany h p deferred ((inst.drop 2).take 4)
    match rs with
    | [sort, cond, t, f] => return some (Ite_mk lid sort cond t f)
    | _ => Except.error .valueError
  | "implies" => do
    if inst.length < 5 then
      Except.error (.assertFail ("sort instruction must be of the form: <lid> implies <sid> <lhsid> <rhsid>. Found: " ++ line))
    else do
    let rs ← resolveMany h p deferred ((inst.drop 2).take 3)
    match rs with
    | [sort, lhs, rhs] => return some (Binop_mk "implies" lid sort lhs rhs)
    | _ => Except.error .valueError
  | "iff" => do
    if inst.length < 5 then
      Except.error (.assertFail ("sort instruction must be of the form: <lid> iff <sid> <lhsid> <rhsid>. Found: " ++ line))
    else do
    let rs ← resolveMany h p deferred ((inst.drop 2).take 3)
    match rs with
    | [sort, lhs, rhs] => return some (Binop_mk "iff" lid sort lhs rhs)
    | _ => Except.error .valueError
  | "uext" => do
    if inst.length < 5 then
      Except.error (.assertFail ("uext instruction must be of the form: <lid> uext <sid> <opid> <width> [<name>]. Found: " ++ line))
    else do
    let rs ← resolveMany h p deferred ((inst.drop 2).take 2)
    let width ← pyInt (inst.getD 4 "")
    let name := if inst.length >= 6 then pyStrip (inst.getD 5 "") else "uext_" ++ t0
    match rs with
    | [sort, operand] => return some (Ext_mk "uext" lid sort operand width name)
    | _ => Except.error .valueError
  | "sext" => do
    if inst.length < 5 then
      Except.error (.assertFail ("sext instruction must be of the form: <lid> sext <sid> <opid> <width> [<name>]. Found: " ++ line))
    else do
    let rs ← resolveMany h p deferred ((inst.drop 2).take 2)
    let width ← pyInt (inst.getD 4 "")
    let name := if inst.length >= 6 then pyStrip (inst.getD 5 "") else "sext_" ++ t0
    match rs with
    | [sort, operand] => return some (Ext_mk "sext" lid sort operand width name)
    | _ => Except.error .valueError
  | "srem" => do
    -- unreachable: "srem" is not in tags; the guard above already fired.
    -- Even without the guard, Srem is an undefined class name.
    Except.error (.nameError "name Srem is not defined")
  | "urem" => do
    Except.error (.nameError "name Urem is not defined")
  | t =>
    if t == "not" || t == "inc" || t == "dec" || t == "neg"
        || t == "redor" || t == "redand" || t == "redxor" then do
      if inst.length < 4 then
        Except.error (.assertFail (t ++ " instruction must be of the form: <lid> " ++ t ++ " <sid> <opid>. Found: " ++ line))
      else do
      let rs ← resolveMany h p deferred ((inst.drop 2).take 2)
      match rs with
      | [sort, op1] => return some (Unop_mk t lid sort op1)
      | _ => Except.error .valueError
    else if t == "add" || t == "sub" || t == "mul" || t == "sdiv" || t == "udiv"
        || t == "smod" || t == "sll" || t == "srl" || t == "sra" || t == "and"
        || t == "or" || t == "xor" || t == "concat" || t == "eq" || t == "neq"
        || t == "ugt" || t == "sgt" || t == "ugte" || t == "sgte" || t == "ult"
        || t == "slt" || t == "ulte" || t == "slte" then do
      if inst.length < 5 then
        Except.error (.assertFail ("sort instruction must be of the form: <lid> " ++ t ++ " <sid> <op1> <op2>. Found: " ++ line))
      else do
      let rs ← resolveMany h p deferred ((inst.drop 2).take 3)
      match rs with
      | [sort, op1, op2] => return some (Binop_mk t lid sort op1 op2)
      | _ => Except.error .valueError
    else
      -- the final `case _: print(...); exit(1)` of parse_inst
      Except.error (.exitErr ("Unsupported operation type: " ++ t ++ " in " ++ line))

/-- Loop body of `Parser.parseSeq`: eager, order-dependent parsing that
appends each parsed instruction to the program. -/
def parseSeqGo (h : Heap) (p : List Nat) : List String → Except PyErr (Heap × List Nat)
  | [] => .ok (h, p)
  | line :: rest => do
    let op ← parse_inst h p line false
    match op with
    | none => parseSeqGo h p rest
    | some node =>
      let (h', q) := alloc h node
      parseSeqGo h' (List.append p [q]) rest

/-- `Parser.parseSeq` on a fresh parser. -/
def parseSeq (lines : List String) : Except PyErr (Heap × List Nat) :=
  parseSeqGo [] [] lines

/-- Phase 1 of `Parser.parseDeferred`: `list(map(self.parse_inst, self.p_str))`
(with `deferred=True`); comment lines stay in the list as None. -/
def parseDeferredPhase1 (lines : List String) : Except PyErr (List (Option Node)) :=
  List.mapM (fun l => parse_inst [] [] l true) lines

/-- Phase 2 context: `dict(map(lambda inst: (inst.lid, inst), self.p))`;
a dict comprehension keeps the last entry per key, and `.get` on a
missing key yields None. -/
def contextGet (h : Heap) (l : Int) : Option Nat :=
  List.find? (fun q => lidOf h q == l) (List.range (List.length h)).reverse

/-- Phase 3: `resolveIds` replaces every operand by `context.get(op.lid)`;
a raw int/str operand has no `lid` attribute. -/
def resolveIds (h : Heap) (n : Node) : Except PyErr Node := do
  let ops' ← List.mapM
    (fun o => match o with
      | Opnd.ref q =>
        Except.ok (match contextGet h (lidOf h q) with
          | some r => Opnd.ref r
          | none => Opnd.pyNone)
      | _ => Except.error (PyErr.attrError "object has no attribute lid"))
    n.ops
  .ok { n with ops := ops' }

/-- `Parser.parseDeferred` on a fresh parser: parse every line
independently, build the lid lookup table, then rewrite every operand
list.  Building the table calls `.lid` on every entry of the phase-1
list, so a comment line (None entry) raises AttributeError. -/
def parseDeferred (lines : List String) : Except PyErr (Heap × List Nat) := do
  let nodes ← parseDeferredPhase1 lines
  if List.contains nodes none then
    Except.error (.attrError "NoneType object has no attribute lid")
  else
  let h : Heap := List.filterMap id nodes
  let resolved ← List.mapM (resolveIds h) h
  .ok (resolved, List.range (List.length resolved))

/-- `parse(p_str, deferred)` from parser.py. -/
def parse (deferred : Bool) (lines : List String) : Except PyErr (Heap × List Nat) :=
  if deferred then parseDeferred lines else parseSeq lines

/-! ## Serialization (program.py) -/

/-- The operand part of `Instruction.serialize`:
`' '.join([(str(op.lid) if isinstance(op, Instruction) else str(op)) + " " for op in operands])`.
The leading assert rejects operands that are neither instructions nor
integers; when it fails, the `%d` formatting of its own message raises
TypeError first. -/
def serializeOps (h : Heap) (ops : List Opnd) : Except PyErr String :=
  if List.any ops (fun o => match o with
      | .strLit _ => true
      | .pyNone => true
      | _ => false) then
    .error (.typeError "%d format: a number is required, not list")
  else
    .ok (String.intercalate " "
      (ops.map (fun o =>
        (match o with
         | .ref q => toString (lidOf h q)
         | .intLit n => toString n
         | _ => "") ++ " ")))

/-- `serialize` of a single instruction, including the overrides of
Sort, Input, State, the constants and Slice. -/
def serializeNode (h : Heap) (n : Node) : Except PyErr String := do
  let ops ← serializeOps h n.ops
  let base := toString n.lid ++ " " ++ n.tag ++ " " ++ ops
  .ok (if n.tag == "sort" then base ++ n.typ ++ " " ++ toString n.width
    else if n.tag == "input" || n.tag == "state" then base ++ n.name
    else if n.tag == "constd" || n.tag == "consth" || n.tag == "const" then
      base ++ toString n.value
    else if n.tag == "slice" then base ++ toString n.width ++ " " ++ toString n.lowbit
    else base)

/-- `serialize_p`: `reduce(lambda acc, s: acc + s.serialize() + "\n", p, "")`. -/
def serialize_p (h : Heap) (p : List Nat) : Except PyErr String :=
  List.foldlM (fun acc q => do
      let s ← serializeNode h (nodeOf h q)
      Except.ok (acc ++ s ++ "\n"))
    "" p

/-- `Output.__init__(lid, out)`: the two-argument constructor that exists
in program.py (the parser breaks by passing it a third argument, but
direct construction works and is what btormiter.py consumes). -/
def Output_mk (lid : Int) (out : Nat) : Node :=
  { lid := lid, tag := "output", ops := [.ref out] }

/-! ## Miter merge (btormiter.py) -/

/-- `create_lec_assertion(out1, out2, base_lid)`: reads
`out1.operands[0]` and `out2.operands[0]`, then evaluates
`Sort(base_lid, 1)` — but `Sort.__init__` requires `(lid, typ, width)`,
so the call raises TypeError before any of the three miter instructions
is built (`Neq(base_lid + 1, [sort, op1, op2])` would equally be a
TypeError, passing a list where `Neq` expects `(lid, sort, op1, op2)`). -/
def create_lec_assertion (h : Heap) (out1 out2 : Nat) (base_lid : Int) :
    Except PyErr (Heap × List Nat) := do
  let _op1 ← pyIndex (nodeOf h out1).ops 0
  let _op2 ← pyIndex (nodeOf h out2).ops 0
  let _ := base_lid
  Except.error (.typeError "Sort init missing 1 required positional argument: width")

/-- The inner `for oper in op.operands` loop of `merge`: it only rebinds
the loop variable `oper`, so the operand list is never updated; the
computation (including the possible StopIteration of the bare `next`) is
performed and its result discarded. -/
def redirectScan (h : Heap) (inputs : List Nat) : List Opnd → Except PyErr Unit
  | [] => .ok ()
  | o :: rest =>
    match o with
    | .ref r =>
      if tagOf h r == "input" then do
        let b ← pyIsin h r (List.map Opnd.ref inputs)
        if b then
          match List.find? (fun inp => eqNode (nodeOf h inp) (nodeOf h r)) inputs with
          | some _ => redirectScan h inputs rest
          | none => Except.error .stopIteration
        else redirectScan h inputs rest
      else redirectScan h inputs rest
    | _ => redirectScan h inputs rest

/-- The `for op in p2` loop of `merge`: non-Input instructions are
renumbered (through the shared reference) and appended to `new_p2`. -/
def mergeGo (h : Heap) (inputs : List Nat) (cur_lid : Int) (new_p2 : List Nat) :
    List Nat → Except PyErr (Heap × Int × List Nat)
  | [] => .ok (h, cur_lid, new_p2)
  | q :: rest => do
    let (h1, cur1, np1) :=
      if tagOf h q == "input" then (h, cur_lid, new_p2)
      else (setLid h q cur_lid, cur_lid + 1, List.append new_p2 [q])
    let _ ← redirectScan h1 inputs (nodeOf h1 q).ops
    mergeGo h1 inputs cur1 np1 rest

/-- `merge(p1, p2)` from btormiter.py. -/
def merge (h : Heap) (p1 p2 : List Nat) : Except PyErr (Heap × List Nat) := do
  let inputs := List.filter (fun q => tagOf h q == "input") p1
  let out1 ← pyIndex p1 ((List.length p1 : Int) - 1)
  let (h1, _cur, new_p2) ← mergeGo h inputs (List.length p1 : Int) [] p2
  let out2 ← pyIndex p2 ((List.length new_p2 : Int) - 1)
  let last2 ← pyIndex new_p2 ((List.length new_p2 : Int) - 1)
  let (h2, lec) ← create_lec_assertion h1 out1 out2 (lidOf h1 last2)
  .ok (h2, List.append (List.append p1.dropLast new_p2.dropLast) lec)

/-! ## Passes -/

/-- Loop of `RenameInputs.run`: every Input is rebuilt as
`Input(inst.lid, inst.sort, f"inp_-i-")`, but Input objects have no
`sort` attribute (`Input.__init__` stores the sort only in the operand
list and in `sid`), so the first Input raises AttributeError; non-Input
instructions are passed through. -/
def rename_inputs_go (h : Heap) : List Nat → Except PyErr (List Nat)
  | [] => .ok []
  | q :: rest =>
    if tagOf h q == "input" then
      Except.error (.attrError "Input object has no attribute sort")
    else do
      let rest' ← rename_inputs_go h rest
      .ok (q :: rest')

/-- `RenameInputs.run`. -/
def rename_inputs_run (h : Heap) (p : List Nat) : Except PyErr (Heap × List Nat) := do
  let res ← rename_inputs_go h p
  .ok (h, res)

/-- Loop of `CheckLidOrdering.run`: sets every instruction's lid to its
zero-based position. -/
def checkLidGo (h : Heap) (i : Int) : List Nat → Heap × List Nat
  | [] => (h, [])
  | q :: rest =>
    let h1 := setLid h q i
    let (h2, res) := checkLidGo h1 (i + 1) rest
    (h2, q :: res)

/-- `CheckLidOrdering.run`. -/
def check_lid_ordering_run (h : Heap) (p : List Nat) : Except PyErr (Heap × List Nat) :=
  .ok (checkLidGo h 0 p)

/-- `next((op for op in p if (s.isin(op.operands) and isinstance(op, Init))), None)`
from InitAllStates.run: the first Init whose operand list structurally
contains the state `s`.  `isin` is evaluated before the isinstance
check, exactly as the conjunction is ordered in the source. -/
def firstInitFor (h : Heap) (s : Nat) : List Nat → Except PyErr (Option Nat)
  | [] => .ok none
  | op :: rest => do
    let b ← pyIsin h s (nodeOf h op).ops
    if b && (tagOf h op == "init") then .ok (some op)
    else firstInitFor h s rest

/-- The uninitialized states of `p`: those whose `firstInitFor` is None. -/
def uninitStates (h : Heap) (p : List Nat) : Except PyErr (List Nat) := do
  let states := List.filter (fun q => tagOf h q == "state") p
  let pairs ← List.mapM (fun s => do
      let i ← firstInitFor h s p
      Except.ok (s, i)) states
  .ok (List.map (fun si => si.1) (List.filter (fun si => si.2.isNone) pairs))

/-- The main loop of `InitAllStates.run`: renumbers every instruction with
a running lid starting at 1 and, after each state matching the
uninitialized list, appends a zero `Constd` of the state's sort and an
`Init` wiring the state to it (the Constd constructor also reads
`sort.lid`, which raises on a raw operand). -/
def iasLoop (h : Heap) (uninit : List Nat) (lid : Int) :
    List Nat → Except PyErr (Heap × List Nat)
  | [] => .ok (h, [])
  | q :: rest => do
    if tagOf h q == "state" then do
      let b ← pyIsin h q (List.map Opnd.ref uninit)
      if b then do
        let h1 := setLid h q lid
        let sortOp ← pyIndex (nodeOf h1 q).ops 0
        let _sid ← (match sortOp with
          | Opnd.ref r => Except.ok (lidOf h1 r)
          | _ => Except.error (PyErr.attrError "object has no attribute lid"))
        let (h2, z) := alloc h1 { lid := lid + 1, tag := "constd", ops := [sortOp], value := 0 }
        let (h3, i) := alloc h2 { lid := lid + 2, tag := "init", ops := [sortOp, Opnd.ref q, Opnd.ref z] }
        let (h4, res) ← iasLoop h3 uninit (lid + 3) rest
        .ok (h4, q :: z :: i :: res)
      else do
        let h1 := setLid h q lid
        let (h2, res) ← iasLoop h1 uninit (lid + 1) rest
        .ok (h2, q :: res)
    else do
      let h1 := setLid h q lid
      let (h2, res) ← iasLoop h1 uninit (lid + 1) rest
      .ok (h2, q :: res)

/-- `InitAllStates.run`. -/
def init_all_states_run (h : Heap) (p : List Nat) : Except PyErr (Heap × List Nat) := do
  let uninit ← uninitStates h p
  iasLoop h uninit 1 p

/-! ## Pass registry and pipeline (allpasses.py and the pipeline fragment
of `__main__.main`, lines 82-96) -/

/-- A registered pass: its unique id and its flat-sequence transform. -/
structure PassT where
  id : String
  run : Heap → List Nat → Except PyErr (Heap × List Nat)

/-- `find_pass(p, id)`: first pass with the given id, else None. -/
def find_pass (ps : List PassT) (id : String) : Option PassT :=
  List.find? (fun e => e.id == id) ps

/-- `all_passes`: the fixed registry, in registration order. -/
def all_passes : List PassT :=
  [⟨"rename-inputs", rename_inputs_run⟩,
   ⟨"init-all-states", init_all_states_run⟩,
   ⟨"check-lid-ordering", check_lid_ordering_run⟩]

/-- The validation loop of `main`: every requested name is checked against
the registry (exiting on the first unknown one) before any pass runs. -/
def validate_passes (names : List String) : Except PyErr Unit :=
  match names with
  | [] => .ok ()
  | n :: rest =>
    if (find_pass all_passes n).isNone then
      .error (.exitErr ("Invalid pass given as argument: " ++ n))
    else validate_passes rest

/-- `pipeline = [p for p in all_passes if p.id in pass_names]`: note the
comprehension iterates over the registry, so the resulting order is the
registry order, not the requested order. -/
def pipeline_of (names : List String) : List PassT :=
  List.filter (fun p => names.contains p.id) all_passes

/-- The ids of the passes the pipeline will run, in execution order. -/
def pipeline_ids (names : List String) : List String :=
  List.map (fun p => p.id) (pipeline_of names)

/-- The pipeline fragment of `main`: validate all requested ids, then run
the resolved passes in order over the program. -/
def run_pipeline (h : Heap) (prog : List Nat) (names : List String) :
    Except PyErr (Heap × List Nat) := do
  let _ ← validate_passes names
  List.foldlM (fun st p => p.run st.1 st.2) (h, prog) (pipeline_of names)

/-! ## Program construction (program.py) -/

/-- A Module: a named region with an instruction body. -/
structure ModuleT where
  name : String
  body : List Nat
deriving DecidableEq, Repr

/-- A Contract: a named region of custom instructions.  (Its own
constructor assertion — at least one pre/postcondition — is separate
from the Program invariants under test and not modelled here.) -/
structure ContractT where
  name : String
  body : List Nat
deriving DecidableEq, Repr

/-- A Program: modules plus contracts. -/
structure ProgramT where
  modules : List ModuleT
  contracts : List ContractT
deriving DecidableEq, Repr

/-- `Program.__init__`: the three sanity checks, in source order. -/
def Program_init (modules : List ModuleT) (contracts : List ContractT) :
    Except PyErr ProgramT :=
  if List.length modules < List.length contracts then
    .error (.assertFail "There should be at least as many modules as there are contracts!")
  else
    match List.find?
        (fun m => 1 < List.length (contracts.filter (fun c => c.name == m.name))) modules with
    | some m => .error (.assertFail ("Module " ++ m.name ++ " has more than one contract!"))
    | none =>
      match List.find?
          (fun c => List.length (modules.filter (fun m => c.name == m.name)) != 1) contracts with
      | some c => .error (.assertFail ("Contract " ++ c.name ++ " references the wrong number of modules!"))
      | none => .ok ⟨modules, contracts⟩

/-! ## Predicates used to state the claims -/

def opndIsRef : Opnd → Bool
  | .ref _ => true
  | _ => false

/-- Pure form of `isin` against a list of object references (never
raises, since every compared element is an object). -/
def isinB (h : Heap) (s : Nat) (l : List Nat) : Bool :=
  List.any l (fun r => eqNode (nodeOf h s) (nodeOf h r))

/-- Whether some Init instruction of `p` has the state `s` in its operand
list (by object reference). -/
def hasInitIn (h : Heap) (p : List Nat) (s : Nat) : Bool :=
  List.any p (fun op => tagOf h op == "init" && decide (Opnd.ref s ∈ (nodeOf h op).ops))

/-- All object references reachable from `p`: its members and every
operand target of its members. -/
def allTargets (h : Heap) (p : List Nat) : List Nat :=
  List.append p
    (p.flatMap (fun q => (nodeOf h q).ops.filterMap
      (fun o => match o with | Opnd.ref r => some r | _ => none)))

/-- Structural equality agrees with object identity between the states of
`p` and everything `p` can compare them to. -/
def sepOK (h : Heap) (p : List Nat) : Bool :=
  List.all (List.filter (fun q => tagOf h q == "state") p) (fun s =>
    List.all (allTargets h p) (fun r =>
      (eqNode (nodeOf h s) (nodeOf h r)) == (s == r)))

/-- Well-formedness of a flat program for the InitAllStates analysis:
distinct objects with valid references, reference-only operand lists
(programs with Uext/Sext raw operands make `isin` raise), each State
carrying exactly one sort operand, structurally-distinguishable states,
and at most one Init per State. -/
def iasWF (h : Heap) (p : List Nat) : Bool :=
  decide (List.Nodup p)
  && List.all p (fun q => decide (q < List.length h))
  && List.all p (fun q => List.all (nodeOf h q).ops opndIsRef)
  && List.all p (fun q => (tagOf h q != "state")
      || (match (nodeOf h q).ops with
          | [Opnd.ref r] => tagOf h r == "sort"
          | _ => false))
  && sepOK h p
  && List.all p (fun s => (tagOf h s != "state")
      || decide (List.countP
            (fun j => tagOf h j == "init" && decide (Opnd.ref s ∈ (nodeOf h j).ops)) p ≤ 1))

/-- The Init instructions of `res` whose operand list references `q`. -/
def initsReferencing (h : Heap) (res : List Nat) (q : Nat) : List Nat :=
  List.filter (fun i => tagOf h i == "init" && decide (Opnd.ref q ∈ (nodeOf h i).ops)) res

/-- Claim C6 as stated: after InitAllStates, every State of the result has
exactly one Init whose operands reference it and whose value operand
(third operand of Init) is a zero-valued constant of the state's sort,
and the lids of the result are 1, 2, ..., len(result) in order. -/
def claim_C6_check (h : Heap) (p : List Nat) : Bool :=
  match init_all_states_run h p with
  | .error _ => false
  | .ok (h', res) =>
    List.all (List.filter (fun q => tagOf h' q == "state") res) (fun q =>
      match initsReferencing h' res q with
      | [i] =>
        (match (nodeOf h' i).ops.get? 2 with
         | some (Opnd.ref v) =>
              (nodeOf h' v).value == 0
              && ((nodeOf h' v).tag == "constd" || (nodeOf h' v).tag == "consth"
                  || (nodeOf h' v).tag == "const" || (nodeOf h' v).tag == "zero")
              && ((nodeOf h' v).ops.head? == (nodeOf h' q).ops.head?)
         | _ => false)
      | _ => false)
    && (List.map (lidOf h') res == List.map (fun k => (k : Int) + 1) (List.range (List.length res)))

/-! ## Concrete objects used as counterexamples / failing inputs -/

/-- Heap for C3: two structurally matching three-instruction designs
(sort, one input, output), sharing input name and sort shape. -/
def hC3 : Heap :=
  [Sort_mk 1 "bitvector" 1, Input_mk 2 0 "a", Output_mk 3 1,
   Sort_mk 1 "bitvector" 1, Input_mk 2 3 "a", Output_mk 3 4]

/-- Heap for C4: two four-instruction designs (sort, input, not, output)
with the same single input. -/
def hC4 : Heap :=
  [Sort_mk 1 "bitvector" 2, Input_mk 2 0 "b", Unop_mk "not" 3 0 1, Output_mk 4 2,
   Sort_mk 1 "bitvector" 2, Input_mk 2 4 "b", Unop_mk "not" 3 4 5, Output_mk 4 6]

/-- Heap for C5: a sort and one named input. -/
def hC5 : Heap := [Sort_mk 1 "bitvector" 1, Input_mk 2 0 "a"]

/-- Heap for C6's counterexample: a state initialized to the nonzero
constant 1 (`1 sort bitvector 2; 2 state 1 x; 3 constd 1 1; 4 init 1 2 3`). -/
def hC6 : Heap :=
  [Sort_mk 1 "bitvector" 2, State_mk 2 0 "x", Constant_mk "constd" 3 0 1,
   Init_mk 4 0 1 2]

/-- Heap for C6's amended-claim witness: an uninitialized state feeding a
bad. -/
def hC6w : Heap := [Sort_mk 1 "bitvector" 2, State_mk 2 0 "x", Bad_mk 3 1]

/-- The three violations of claim C7, as stated there: more contracts than
modules; two contracts sharing the name of one module; a contract whose
name matches no module. -/
def c7_violations (ms : List ModuleT) (cs : List ContractT) : Bool :=
  decide (List.length ms < List.length cs)
  || List.any ms (fun m => 1 < List.length (cs.filter (fun c => c.name == m.name)))
  || List.any cs (fun c => List.length (ms.filter (fun m => m.name == c.name)) == 0)

/-- The serialize-after-parse composition of claim C2. -/
def serialize_after_parse (lines : List String) : Except PyErr String :=
  Except.bind (parse false lines) (fun hp => serialize_p hp.1 hp.2)

/-- The attributes `eq` can read: everything except the lid (and the
standard flag).  Heap mutations performed by the passes (lid
reassignment, fresh allocation) preserve these for existing objects. -/
def eqFields (n : Node) : List Opnd × String × String × Int × String × Int × Int × Int :=
  (n.ops, n.tag, n.typ, n.width, n.name, n.value, n.highbit, n.lowbit)

/-- The states of `p` with no Init referencing them (the pure value
computed by `uninitStates` on well-formed programs). -/
def uninitList (h : Heap) (p : List Nat) : List Nat :=
  List.filter (fun s => !(hasInitIn h p s))
    (List.filter (fun q => tagOf h q == "state") p)

/-! # Theorems -/

/-- Claim C1 (refuted by the code, code bug): the spec demands that eager
and deferred parsing agree on every well-formed, id-consistent line
sequence, but on the two-line program `1 sort bitvector 1; 2 input 1 a`
the eager strategy returns two instructions while the deferred strategy
raises TypeError: `Parser.defer` builds its placeholders with
`Instruction(int(id))`, and `Instruction.__init__` has no default for
its required `inst` parameter. -/
theorem claim_C1_bug :
    Except.map (fun r => List.length r.2) (parseSeq ["1 sort bitvector 1", "2 input 1 a"])
      = .ok 2
    ∧ parseDeferred ["1 sort bitvector 1", "2 input 1 a"]
      = .error (.typeError "Instruction init missing 1 required positional argument: inst") := by
  exact ⟨rfl, rfl⟩

/-- Claim C2 (refuted by the code, code bug): serializing the parse of the
well-formed, fully named program `1 sort bitvector 1; 2 input 1 a;
3 bad 2` yields `"... 3 bad 2 \n"` — `Instruction.serialize` appends a
space after every operand id, so the bad line gains a trailing space and
the result is not the newline-join of the input (with or without a
trailing newline). -/
theorem claim_C2_bug :
    serialize_after_parse ["1 sort bitvector 1", "2 input 1 a", "3 bad 2"]
      = .ok "1 sort bitvector 1\n2 input 1 a\n3 bad 2 \n"
    ∧ "1 sort bitvector 1\n2 input 1 a\n3 bad 2 \n"
        ≠ String.intercalate "\n" ["1 sort bitvector 1", "2 input 1 a", "3 bad 2"]
    ∧ "1 sort bitvector 1\n2 input 1 a\n3 bad 2 \n"
        ≠ String.join (List.map (fun l => l ++ "\n") ["1 sort bitvector 1", "2 input 1 a", "3 bad 2"]) := by
  refine ⟨rfl, by decide, by decide⟩

/-- Claim C3 (refuted by the code, code bug): `merge` never redirects a
p2 operand to p1's structurally-equal Input — the rewrite loop only
rebinds its loop variable, as witnessed by p2's retained output still
referencing p2's own input object (reference 4, not p1's input 1) after
the renumbering loop — and `merge` itself cannot even return: it raises
TypeError inside `create_lec_assertion` (`Sort(base_lid, 1)` lacks the
required width argument). -/
theorem claim_C3_bug :
    Except.map (fun r => ((nodeOf r.1 5).ops, r.2.2)) (mergeGo hC3 [1] 3 [] [3, 4, 5])
      = .ok ([Opnd.ref 4], [3, 5])
    ∧ merge hC3 [0, 1, 2] [3, 4, 5]
      = .error (.typeError "Sort init missing 1 required positional argument: width") := by
  exact ⟨rfl, rfl⟩

/-- Claim C4 (refuted by the code, code bug): on two four-instruction
designs with one shared input (n1 = n2 = 4, k = 1), the claim demands a
merged program of length (4-1)+(4-1-1)+3 = 8 ending in Sort/Neq/Bad, but
`merge` returns no program at all: `create_lec_assertion` raises
TypeError constructing `Sort(base_lid, 1)` without a width. -/
theorem claim_C4_bug :
    merge hC4 [0, 1, 2, 3] [4, 5, 6, 7]
      = .error (.typeError "Sort init missing 1 required positional argument: width") := by
  exact rfl

/-- Claim C5 (refuted by the code, code bug): `RenameInputs.run` rebuilds
each Input with `Input(inst.lid, inst.sort, ...)`, but Input objects
have no `sort` attribute, so the pass raises AttributeError on any
program containing an Input; a program without Inputs passes through
unchanged. -/
theorem claim_C5_bug :
    rename_inputs_run hC5 [0, 1] = .error (.attrError "Input object has no attribute sort")
    ∧ rename_inputs_run hC5 [0] = .ok (hC5, [0]) := by
  exact ⟨rfl, rfl⟩

/-- Claim C8 (refuted by the code, code bug): although `parse_inst` has
dedicated srem/urem cases (and the spec lists both as supported binary
operations), neither tag is in the `tags` list, so the validation
`assert tag in tags` rejects an srem/urem line with the
unsupported-operation error; a listed binary operation of the same shape
(smod) parses fine. -/
theorem claim_C8_bug :
    parse_inst [] [] "4 srem 1 2 3" false
      = .error (.assertFail "Unsupported operation type: srem in 4 srem 1 2 3")
    ∧ parse_inst [] [] "4 urem 1 2 3" false
      = .error (.assertFail "Unsupported operation type: urem in 4 urem 1 2 3")
    ∧ List.contains tags "srem" = false
    ∧ List.contains tags "urem" = false
    ∧ Except.map (fun r => List.map (fun q => tagOf r.1 q) r.2)
        (parseSeq ["1 sort bitvector 1", "2 input 1 a", "3 input 1 b", "4 smod 1 2 3"])
      = .ok ["sort", "input", "input", "smod"] := by
  refine ⟨rfl, rfl, by decide, by decide, rfl⟩

/-- Claim C6, counterexample: on the program `1 sort bitvector 2;
2 state 1 x; 3 constd 1 1; 4 init 1 2 3` (a state already initialized to
the nonzero constant 1), the pass keeps the existing Init untouched, so
the claim "every State has exactly one Init whose value operand is a
zero-valued constant of its sort" is false after the pass. -/
theorem claim_C6_counterexample : claim_C6_check hC6 [0, 1, 2, 3] = false := by
  decide

/-- Claim C7, counterexample: with two modules both named "a" and a
single contract named "a", none of the three violations stated by the
claim holds (contracts do not outnumber modules, no two contracts share
a module's name, and the contract's name does match a module), yet
`Program.__init__` fails, because its third check requires each
contract's name to match exactly one module. -/
theorem claim_C7_counterexample :
    c7_violations [⟨"a", []⟩, ⟨"a", []⟩] [⟨"a", []⟩] = false
    ∧ Program_init [⟨"a", []⟩, ⟨"a", []⟩] [⟨"a", []⟩]
      = .error (.assertFail "Contract a references the wrong number of modules!") := by
  exact ⟨by decide, rfl⟩

/-- Claim C9, counterexample: requesting `init-all-states` followed by
`rename-inputs` — both registered — makes the pipeline run
`rename-inputs` first, because `[p for p in all_passes if p.id in
pass_names]` iterates over the registry, so execution follows registry
order, not the requested order. -/
theorem claim_C9_counterexample :
    ((find_pass all_passes "init-all-states").isSome = true
      ∧ (find_pass all_passes "rename-inputs").isSome = true)
    ∧ pipeline_ids ["init-all-states", "rename-inputs"]
      = ["rename-inputs", "init-all-states"]
    ∧ pipeline_ids ["init-all-states", "rename-inputs"]
      ≠ ["init-all-states", "rename-inputs"] := by
  refine ⟨⟨rfl, rfl⟩, rfl, by decide⟩

/-- Claim C10 (confirmed): `get_inst(p, n)` returns the first instruction
of `p` whose lid equals `n` (the head of the filtered list), and returns
None — it is a total function, not a raising one — exactly when no
instruction of `p` carries lid `n`. -/
theorem claim_C10_get_inst (h : Heap) (p : List Nat) (n : Int) :
    get_inst h p n = List.find? (fun op => lidOf h op == n) p
    ∧ (get_inst h p n = none ↔ ∀ q ∈ p, ¬ lidOf h q = n) := by
  have key : ∀ l : List Nat, get_inst h l n = List.find? (fun op => lidOf h op == n) l := by
    intro l
    induction l with
    | nil => rfl
    | cons a t ih =>
      by_cases hb : lidOf h a = n
      · simp [get_inst, List.filter_cons, hb, List.find?_cons]
      · have hb' : (lidOf h a == n) = false := by simp [hb]
        unfold get_inst at ih ⊢
        simp only [List.filter_cons, hb', List.find?_cons]
        simpa using ih
  refine ⟨key p, ?_⟩
  rw [key p, List.find?_eq_none]
  simp

/-- A map of ids commutes with the registry filter. -/
theorem map_id_filter_aux (ps : List PassT) (names : List String) :
    List.map (fun p => p.id) (List.filter (fun p => names.contains p.id) ps)
      = List.filter (fun i => names.contains i) (List.map (fun p => p.id) ps) := by
  induction ps with
  | nil => rfl
  | cons a t ih =>
    by_cases hm : a.id ∈ names
    · simp only [List.filter_cons, List.map_cons]
      simp [hm]
      simpa using ih
    · simp only [List.filter_cons, List.map_cons]
      simp [hm]
      simpa using ih

/-- The validation loop resolves to the first unknown name, if any. -/
theorem validate_passes_spec (names : List String) :
    validate_passes names =
      (match List.find? (fun n => (find_pass all_passes n).isNone) names with
       | some bad => .error (.exitErr ("Invalid pass given as argument: " ++ bad))
       | none => .ok ()) := by
  induction names with
  | nil => rfl
  | cons n rest ih =>
    cases hopt : find_pass all_passes n with
    | none => simp [validate_passes, hopt, List.find?_cons]
    | some pp => simp [validate_passes, hopt, List.find?_cons, ih]

/-- Claim C9 (corrected): if any requested id is unknown, the pipeline
fails with the invalid-pass error naming the first such id, before any
pass transforms the program (the returned computation performs no pass);
if every id is registered, the executed pipeline is the foldl over
`pipeline_of`, and the executed pass ids are the registry-ordered filter
of the request — each registered requested pass once, in registry order,
not in the requested order. -/
theorem claim_C9_amended (h : Heap) (prog : List Nat) (names : List String) :
    (match List.find? (fun n => (find_pass all_passes n).isNone) names with
     | some bad => run_pipeline h prog names
         = .error (.exitErr ("Invalid pass given as argument: " ++ bad))
     | none => run_pipeline h prog names
         = List.foldlM (fun st p => p.run st.1 st.2) (h, prog) (pipeline_of names))
    ∧ pipeline_ids names
      = List.filter (fun i => names.contains i) (List.map (fun p => p.id) all_passes) := by
  constructor
  · have hval := validate_passes_spec names
    cases hfind : List.find? (fun n => (find_pass all_passes n).isNone) names with
    | some bad =>
      rw [hfind] at hval
      show run_pipeline h prog names = _
      unfold run_pipeline
      rw [hval]
      rfl
    | none =>
      rw [hfind] at hval
      show run_pipeline h prog names = _
      unfold run_pipeline
      rw [hval]
      rfl
  · show List.map (fun p => p.id) (pipeline_of names) = _
    unfold pipeline_of
    exact map_id_filter_aux all_passes names

/-- Claim C7 (corrected): Program construction fails when contracts
outnumber modules, when two contracts share the name of one module, and
when a contract's name does not match exactly one module — in
particular, it also fails when the name matches several modules, which
is the one case the claim misses; construction succeeds exactly when
contracts do not outnumber modules, every module has at most one
contract, and every contract's name matches exactly one module. -/
theorem claim_C7_amended (ms : List ModuleT) (cs : List ContractT) :
    (∃ pr, Program_init ms cs = .ok pr)
    ↔ (List.length cs ≤ List.length ms
       ∧ (∀ m ∈ ms, List.length (cs.filter (fun c => c.name == m.name)) ≤ 1)
       ∧ (∀ c ∈ cs, List.length (ms.filter (fun m => c.name == m.name)) = 1)) := by
  unfold Program_init
  by_cases h1 : List.length ms < List.length cs
  · rw [if_pos h1]
    constructor
    · intro hpr
      obtain ⟨pr, hpr⟩ := hpr
      cases hpr
    · rintro ⟨hle, -, -⟩
      omega
  · rw [if_neg h1]
    cases hf1 : List.find?
        (fun m => 1 < List.length (List.filter (fun c => c.name == m.name) cs)) ms with
    | some m =>
      constructor
      · intro hpr
        obtain ⟨pr, hpr⟩ := hpr
        cases hpr
      · rintro ⟨-, h2, -⟩
        have hm : m ∈ ms := List.mem_of_find?_eq_some hf1
        have hp := List.find?_some hf1
        have := h2 m hm
        simp only [decide_eq_true_eq] at hp
        omega
    | none =>
      cases hf2 : List.find?
          (fun c => List.length (List.filter (fun m => c.name == m.name) ms) != 1) cs with
      | some c =>
        constructor
        · intro hpr
          obtain ⟨pr, hpr⟩ := hpr
          cases hpr
        · rintro ⟨-, -, h3⟩
          have hc : c ∈ cs := List.mem_of_find?_eq_some hf2
          have hp := List.find?_some hf2
          have := h3 c hc
          simp only [bne_iff_ne, ne_eq] at hp
          omega
      | none =>
        constructor
        · intro _
          refine ⟨by omega, ?_, ?_⟩
          · intro m hm
            have := List.find?_eq_none.mp hf1 m hm
            simp only [decide_eq_true_eq, Bool.not_eq_true] at this
            omega
          · intro c hc
            have := List.find?_eq_none.mp hf2 c hc
            simp only [bne_iff_ne, ne_eq, Bool.not_eq_true] at this
            simpa using this
        · intro _
          exact ⟨_, rfl⟩

/-! ## Heap lemmas for the InitAllStates development -/

theorem setLid_length (h : Heap) (q : Nat) (v : Int) :
    List.length (setLid h q v) = List.length h := by
  unfold setLid
  exact List.length_set h q _

theorem nodeOf_setLid_ne (h : Heap) (q : Nat) (v : Int) (r : Nat) (hne : r ≠ q) :
    nodeOf (setLid h q v) r = nodeOf h r := by
  unfold setLid nodeOf
  simp only [List.get?_eq_getElem?, List.getElem?_set_ne (Ne.symm hne)]

theorem nodeOf_setLid_self (h : Heap) (q : Nat) (v : Int) (hq : q < List.length h) :
    nodeOf (setLid h q v) q = { nodeOf h q with lid := v } := by
  unfold setLid nodeOf
  simp only [List.get?_eq_getElem?, List.getElem?_set_self hq, Option.getD_some]

theorem nodeOf_setLid_oob (h : Heap) (q : Nat) (v : Int) (hq : ¬ q < List.length h) :
    nodeOf (setLid h q v) q = nodeOf h q := by
  unfold setLid nodeOf
  rw [List.set_eq_of_length_le (by omega)]

theorem eqFields_setLid (h : Heap) (q : Nat) (v : Int) (r : Nat) :
    eqFields (nodeOf (setLid h q v) r) = eqFields (nodeOf h r) := by
  by_cases hrq : r = q
  · subst hrq
    by_cases hr : r < List.length h
    · rw [nodeOf_setLid_self h r v hr]
      rfl
    · rw [nodeOf_setLid_oob h r v hr]
  · rw [nodeOf_setLid_ne h q v r hrq]

theorem nodeOf_append_lt (h : Heap) (h2 : List Node) (r : Nat) (hr : r < List.length h) :
    nodeOf (List.append h h2) r = nodeOf h r := by
  unfold nodeOf
  simp only [List.append_eq, List.get?_eq_getElem?, List.getElem?_append_left hr]

theorem nodeOf_append_self (h : Heap) (n : Node) :
    nodeOf (List.append h [n]) (List.length h) = n := by
  unfold nodeOf
  simp only [List.append_eq, List.get?_eq_getElem?, List.getElem?_concat_length, Option.getD_some]

theorem eqNode_congr {a a' b b' : Node}
    (ha : eqFields a = eqFields a') (hb : eqFields b = eqFields b') :
    eqNode a b = eqNode a' b' := by
  simp only [eqFields, Prod.mk.injEq] at ha hb
  obtain ⟨a1, a2, a3, a4, a5, a6, a7, a8⟩ := ha
  obtain ⟨b1, b2, b3, b4, b5, b6, b7, b8⟩ := hb
  simp only [eqNode, a1, a2, a3, a4, a5, a6, a7, a8, b1, b2, b3, b4, b5, b6, b7, b8]

theorem eqNode_refl (a : Node) : eqNode a a = true := by
  simp [eqNode]

theorem isinB_congr {h' h : Heap} {q : Nat} {l : List Nat}
    (hq : eqFields (nodeOf h' q) = eqFields (nodeOf h q))
    (hl : ∀ r ∈ l, eqFields (nodeOf h' r) = eqFields (nodeOf h r)) :
    isinB h' q l = isinB h q l := by
  unfold isinB
  induction l with
  | nil => rfl
  | cons r rest ih =>
    simp only [List.any_cons]
    rw [eqNode_congr hq (hl r (List.mem_cons_self r rest)),
      ih (fun x hx => hl x (List.mem_cons_of_mem r hx))]

theorem pyIsin_refs (h : Heap) (s : Nat) (l : List Nat) :
    pyIsin h s (List.map Opnd.ref l) = .ok (isinB h s l) := by
  induction l with
  | nil => rfl
  | cons r rest ih =>
    simp only [List.map_cons, pyIsin, pyEq, isinB, List.any_cons]
    cases hb : eqNode (nodeOf h s) (nodeOf h r) with
    | true => rfl
    | false => simpa [isinB] using ih


/-- Reduction of the Except bind on a success value. -/
theorem ok_bind {α β : Type} (a : α) (f : α → Except PyErr β) :
    (Except.ok a >>= f) = f a := rfl

/-- On a reference-only operand list whose targets are structurally
separated from `s`, `isin` decides membership of the reference. -/
theorem pyIsin_mem (h : Heap) (s : Nat) (ops : List Opnd)
    (hops : ∀ o ∈ ops, opndIsRef o = true)
    (hsep : ∀ r, Opnd.ref r ∈ ops → eqNode (nodeOf h s) (nodeOf h r) = (s == r)) :
    pyIsin h s ops = .ok (decide (Opnd.ref s ∈ ops)) := by
  induction ops with
  | nil => rfl
  | cons o rest ih =>
    obtain ⟨r, rfl⟩ : ∃ r, o = Opnd.ref r := by
      cases o with
      | ref r => exact ⟨r, rfl⟩
      | intLit n => exact absurd (hops _ (List.mem_cons_self _ _)) (by simp [opndIsRef])
      | strLit t => exact absurd (hops _ (List.mem_cons_self _ _)) (by simp [opndIsRef])
      | pyNone => exact absurd (hops _ (List.mem_cons_self _ _)) (by simp [opndIsRef])
    have hsr := hsep r (List.mem_cons_self _ _)
    have ihr := ih (fun o ho => hops o (List.mem_cons_of_mem _ ho))
      (fun r' hr' => hsep r' (List.mem_cons_of_mem _ hr'))
    show (pyEq h s (Opnd.ref r) >>= fun b => if b then .ok true else pyIsin h s rest) = _
    have hpe : pyEq h s (Opnd.ref r) = .ok (s == r) := by
      simp only [pyEq, hsr]
    rw [hpe, ok_bind]
    by_cases hrs : s = r
    · subst hrs
      simp
    · have h1 : (s == r) = false := by simp [hrs]
      rw [h1]
      simp only [Bool.false_eq_true, if_false, ihr]
      simp [List.mem_cons, hrs]

/-- `firstInitFor` finds the first Init containing the reference, on
well-separated reference-only programs. -/
theorem firstInitFor_ok (h : Heap) (s : Nat) (l : List Nat)
    (hops : ∀ op ∈ l, ∀ o ∈ (nodeOf h op).ops, opndIsRef o = true)
    (hsep : ∀ op ∈ l, ∀ r, Opnd.ref r ∈ (nodeOf h op).ops →
      eqNode (nodeOf h s) (nodeOf h r) = (s == r)) :
    firstInitFor h s l
      = .ok (List.find?
          (fun op => decide (Opnd.ref s ∈ (nodeOf h op).ops) && (tagOf h op == "init")) l) := by
  induction l with
  | nil => rfl
  | cons op rest ih =>
    have hpy := pyIsin_mem h s (nodeOf h op).ops
      (hops op (List.mem_cons_self _ _)) (hsep op (List.mem_cons_self _ _))
    have ihr := ih (fun o ho => hops o (List.mem_cons_of_mem _ ho))
      (fun op' hop' => hsep op' (List.mem_cons_of_mem _ hop'))
    show (pyIsin h s (nodeOf h op).ops >>= fun b =>
        if b && (tagOf h op == "init") then .ok (some op) else firstInitFor h s rest) = _
    rw [hpy, ok_bind, List.find?_cons]
    cases hc : (decide (Opnd.ref s ∈ (nodeOf h op).ops) && (tagOf h op == "init")) with
    | true => rfl
    | false => simpa using ihr

/-- The find?-based uninitialized test agrees with `hasInitIn`. -/
theorem find_isNone_eq (h : Heap) (p : List Nat) (s : Nat) :
    (List.find? (fun op => decide (Opnd.ref s ∈ (nodeOf h op).ops) && (tagOf h op == "init")) p).isNone
      = !(hasInitIn h p s) := by
  cases hf : List.find?
      (fun op => decide (Opnd.ref s ∈ (nodeOf h op).ops) && (tagOf h op == "init")) p with
  | none =>
    have hall := List.find?_eq_none.mp hf
    have hfalse : hasInitIn h p s = false := by
      unfold hasInitIn
      cases hx : List.any p (fun op => tagOf h op == "init" && decide (Opnd.ref s ∈ (nodeOf h op).ops)) with
      | false => rfl
      | true =>
        obtain ⟨x, hxm, hxp⟩ := List.any_eq_true.mp hx
        have := hall x hxm
        simp only [Bool.and_eq_true, decide_eq_true_eq] at hxp this
        exact absurd ⟨hxp.2, hxp.1⟩ this
    simp [hfalse]
  | some a =>
    have hp := List.find?_some hf
    have ha : a ∈ p := List.mem_of_find?_eq_some hf
    have htrue : hasInitIn h p s = true := by
      unfold hasInitIn
      rw [List.any_eq_true]
      refine ⟨a, ha, ?_⟩
      simp only [Bool.and_eq_true, decide_eq_true_eq] at hp ⊢
      exact ⟨hp.2, hp.1⟩
    simp [htrue]

/-- Pair bookkeeping of `uninitStates`: filtering the second component
then projecting the first is filtering the original list. -/
theorem map_filter_pairs {α β : Type} (F : α → β) (pred : β → Bool) (l : List α) :
    List.map (fun si => si.1) (List.filter (fun si => pred si.2) (l.map (fun s => (s, F s))))
      = List.filter (fun s => pred (F s)) l := by
  induction l with
  | nil => rfl
  | cons a t ih =>
    simp only [List.map_cons, List.filter_cons]
    cases hp : pred (F a) with
    | true => simp [ih]
    | false => simp [ih]

/-- `uninitStates` succeeds on well-separated reference-only programs and
computes exactly the states with no reaching Init. -/
theorem uninitStates_ok (h : Heap) (p : List Nat)
    (hops : ∀ op ∈ p, ∀ o ∈ (nodeOf h op).ops, opndIsRef o = true)
    (hsep : ∀ s ∈ p, tagOf h s = "state" → ∀ op ∈ p, ∀ r, Opnd.ref r ∈ (nodeOf h op).ops →
      eqNode (nodeOf h s) (nodeOf h r) = (s == r)) :
    uninitStates h p = .ok (uninitList h p) := by
  have key : ∀ (sts : List Nat), (∀ s ∈ sts, s ∈ p ∧ tagOf h s = "state") →
      List.mapM (fun s => do
          let i ← firstInitFor h s p
          Except.ok (s, i)) sts
        = .ok (List.map (fun s =>
            (s, List.find? (fun op => decide (Opnd.ref s ∈ (nodeOf h op).ops)
                  && (tagOf h op == "init")) p)) sts) := by
    intro sts
    induction sts with
    | nil => intro _; rfl
    | cons s rest ih =>
      intro hmem
      obtain ⟨hsp, hss⟩ := hmem s (List.mem_cons_self _ _)
      have hfi := firstInitFor_ok h s p hops (hsep s hsp hss)
      rw [List.mapM_cons, hfi]
      rw [ih (fun x hx => hmem x (List.mem_cons_of_mem _ hx))]
      rfl
  have hmemf : ∀ s ∈ List.filter (fun q => tagOf h q == "state") p,
      s ∈ p ∧ tagOf h s = "state" := by
    intro s hs
    have := List.mem_filter.mp hs
    exact ⟨this.1, by simpa using this.2⟩
  have key2 := key _ hmemf
  unfold uninitStates
  simp only [key2, ok_bind]
  unfold uninitList
  rw [map_filter_pairs]
  congr 1
  apply List.filter_congr
  intro s _
  exact find_isNone_eq h p s

theorem eqFields_tag {a b : Node} (hab : eqFields a = eqFields b) : a.tag = b.tag := by
  simp only [eqFields, Prod.mk.injEq] at hab
  exact hab.2.1

theorem eqFields_ops {a b : Node} (hab : eqFields a = eqFields b) : a.ops = b.ops := by
  simp only [eqFields, Prod.mk.injEq] at hab
  exact hab.1

theorem pyIndex_zero {α : Type} (x : α) (xs : List α) : pyIndex (x :: xs) 0 = .ok x := by
  simp [pyIndex]

/-- One loop step of InitAllStates on a state matching the uninitialized
list: renumber it, then allocate its zero constant and Init. -/
theorem iasLoop_cons_uninit_eq
    (h : Heap) (uninit : List Nat) (lid : Int) (q : Nat) (rest : List Nat) (r : Nat)
    (h' : Heap) (res' : List Nat)
    (htag : (tagOf h q == "state") = true)
    (his : isinB h q uninit = true)
    (hops : (nodeOf (setLid h q lid) q).ops = [Opnd.ref r])
    (hrec : iasLoop
        (List.append
          (List.append (setLid h q lid)
            [{ lid := lid + 1, tag := "constd", ops := [Opnd.ref r], value := 0 }])
          [{ lid := lid + 2, tag := "init",
             ops := [Opnd.ref r, Opnd.ref q, Opnd.ref (List.length (setLid h q lid))] }])
        uninit (lid + 3) rest = .ok (h', res')) :
    iasLoop h uninit lid (q :: rest)
      = .ok (h', q :: List.length (setLid h q lid)
          :: (List.length (setLid h q lid) + 1) :: res') := by
  simp only [iasLoop, htag, if_true, pyIsin_refs, his, ok_bind, hops, pyIndex_zero, alloc]
  rw [hrec, ok_bind]
  simp [List.length_append]

/-- One loop step of InitAllStates on a non-state instruction or an
already-initialized state: renumber and keep. -/
theorem iasLoop_cons_skip_eq
    (h : Heap) (uninit : List Nat) (lid : Int) (q : Nat) (rest : List Nat)
    (h' : Heap) (res' : List Nat)
    (hcase : (tagOf h q == "state") = false
      ∨ ((tagOf h q == "state") = true ∧ isinB h q uninit = false))
    (hrec : iasLoop (setLid h q lid) uninit (lid + 1) rest = .ok (h', res')) :
    iasLoop h uninit lid (q :: rest) = .ok (h', q :: res') := by
  rcases hcase with hc | ⟨hc, his⟩
  · simp only [iasLoop, hc, Bool.false_eq_true, if_false]
    rw [hrec]
    rfl
  · simp only [iasLoop, hc, if_true, pyIsin_refs, his, ok_bind, Bool.false_eq_true, if_false]
    rw [hrec]
    rfl

theorem tagOf_congr {h' h : Heap} {x : Nat}
    (hE : eqFields (nodeOf h' x) = eqFields (nodeOf h x)) : tagOf h' x = tagOf h x :=
  eqFields_tag hE

/-- Full invariant of the InitAllStates loop: it succeeds, preserves
untouched objects, preserves eq-relevant fields of all original objects,
assigns consecutive lids to the result, interleaves the original
instructions with the synthesized zero/Init blocks, and the Init count
of each original object grows exactly by its uninitialized-state
indicator. -/
theorem iasLoop_spec (uninit : List Nat) (N : Nat) :
    ∀ (l : List Nat) (h : Heap) (lid : Int),
      N ≤ List.length h →
      List.Nodup l →
      (∀ q ∈ l, q < N) →
      (∀ r ∈ uninit, r < N) →
      (∀ q ∈ l, tagOf h q = "state" → isinB h q uninit = true →
        ∃ r, (nodeOf h q).ops = [Opnd.ref r]) →
      ∃ h' res, iasLoop h uninit lid l = .ok (h', res)
        ∧ List.length h ≤ List.length h'
        ∧ (∀ x, x < List.length h → x ∉ l → nodeOf h' x = nodeOf h x)
        ∧ (∀ x, x < List.length h → eqFields (nodeOf h' x) = eqFields (nodeOf h x))
        ∧ (∀ k q', List.get? res k = some q' → lidOf h' q' = lid + (k : Int))
        ∧ List.filter (fun x => decide (x < N)) res = l
        ∧ (∀ x ∈ l, tagOf h x = "state" → isinB h x uninit = true →
            ∃ k z i, List.get? res k = some x ∧ List.get? res (k+1) = some z
              ∧ List.get? res (k+2) = some i ∧ N ≤ z ∧ N ≤ i
              ∧ nodeOf h' z
                  = { lid := lidOf h' x + 1, tag := "constd",
                      ops := [List.headD (nodeOf h x).ops Opnd.pyNone], value := 0 }
              ∧ nodeOf h' i
                  = { lid := lidOf h' x + 2, tag := "init",
                      ops := [List.headD (nodeOf h x).ops Opnd.pyNone, Opnd.ref x,
                        Opnd.ref z] })
        ∧ (∀ q0, q0 < N →
            (∀ x ∈ l, tagOf h x = "state" → isinB h x uninit = true →
              List.headD (nodeOf h x).ops Opnd.pyNone ≠ Opnd.ref q0) →
            List.countP (fun j => tagOf h' j == "init"
              && decide (Opnd.ref q0 ∈ (nodeOf h' j).ops)) res
            = List.countP (fun j => tagOf h j == "init"
                && decide (Opnd.ref q0 ∈ (nodeOf h j).ops)) l
              + List.countP (fun j => j == q0
                  && (tagOf h j == "state" && isinB h j uninit)) l) := by
  intro l
  induction l with
  | nil =>
    intro h lid hN hnd hlN huN hshape
    refine ⟨h, [], rfl, le_refl _, fun x _ _ => rfl, fun x _ => rfl, ?_, rfl, ?_, ?_⟩
    · intro k q' hk
      simp at hk
    · intro x hx
      simp at hx
    · intro q0 _ _
      rfl
  | cons q rest ih =>
    intro h lid hN hnd hlN huN hshape
    have hqN : q < N := hlN q (List.mem_cons_self _ _)
    have hqh : q < List.length h := lt_of_lt_of_le hqN hN
    have hndr : List.Nodup rest := (List.nodup_cons.mp hnd).2
    have hqrest : q ∉ rest := (List.nodup_cons.mp hnd).1
    have hrestN : ∀ x ∈ rest, x < N := fun x hx => hlN x (List.mem_cons_of_mem _ hx)
    by_cases htag : tagOf h q = "state"
    · have htagb : (tagOf h q == "state") = true := by simp [htag]
      cases his : isinB h q uninit with
      | true =>
        obtain ⟨r, hopsq⟩ := hshape q (List.mem_cons_self _ _) htag his
        have hzl : List.length (setLid h q lid) = List.length h := setLid_length h q lid
        set Z : Node := { lid := lid + 1, tag := "constd", ops := [Opnd.ref r], value := 0 }
          with hZ
        set I : Node
          := { lid := lid + 2, tag := "init",
               ops := [Opnd.ref r, Opnd.ref q,
                 Opnd.ref (List.length (setLid h q lid))] } with hI
        set h3 : Heap := List.append (List.append (setLid h q lid) [Z]) [I] with hh3
        have hlen3 : List.length h3 = List.length h + 2 := by
          simp [hh3, List.length_append, hzl]
        have hn3 : ∀ x, x < List.length h → nodeOf h3 x = nodeOf (setLid h q lid) x := by
          intro x hx
          have hx1 : x < List.length (setLid h q lid) := by omega
          have hx2 : x < List.length (List.append (setLid h q lid) [Z]) := by
            simp [List.length_append]
            omega
          rw [hh3, nodeOf_append_lt _ _ _ hx2, nodeOf_append_lt _ _ _ hx1]
        have eqF3 : ∀ x, x < List.length h → eqFields (nodeOf h3 x) = eqFields (nodeOf h x) := by
          intro x hx
          rw [hn3 x hx]
          exact eqFields_setLid h q lid x
        have hzval : nodeOf h3 (List.length h) = Z := by
          have hlt : List.length h < List.length (List.append (setLid h q lid) [Z]) := by
            simp [List.length_append, hzl]
          rw [hh3, nodeOf_append_lt _ _ _ hlt]
          rw [show List.length h = List.length (setLid h q lid) from hzl.symm]
          exact nodeOf_append_self _ _
        have hival : nodeOf h3 (List.length h + 1) = I := by
          rw [hh3,
            show List.length h + 1 = List.length (List.append (setLid h q lid) [Z]) from by
              simp [List.length_append, hzl]]
          exact nodeOf_append_self _ _
        have htrans : ∀ x, x < List.length h →
            tagOf h3 x = tagOf h x ∧ (nodeOf h3 x).ops = (nodeOf h x).ops
              ∧ isinB h3 x uninit = isinB h x uninit := by
          intro x hx
          refine ⟨tagOf_congr (eqF3 x hx), eqFields_ops (eqF3 x hx), ?_⟩
          exact isinB_congr (eqF3 x hx)
            (fun u hu => eqF3 u (lt_of_lt_of_le (huN u hu) hN))
        obtain ⟨h', res', heq, hlen', hB, hF, hlid, hfil, hblk, hcnt⟩ :=
          ih h3 (lid + 3) (by omega) hndr hrestN huN
            (fun x hx ht hi => by
              have hxh : x < List.length h := lt_of_lt_of_le (hrestN x hx) hN
              obtain ⟨ht3, hops3, hisin3⟩ := htrans x hxh
              obtain ⟨r', hr'⟩ := hshape x (List.mem_cons_of_mem _ hx)
                (by rw [← ht3]; exact ht) (by rw [← hisin3]; exact hi)
              exact ⟨r', by rw [hops3]; exact hr'⟩)
        have hopsq1 : (nodeOf (setLid h q lid) q).ops = [Opnd.ref r] := by
          rw [eqFields_ops (eqFields_setLid h q lid q)]
          exact hopsq
        have hstep := iasLoop_cons_uninit_eq h uninit lid q rest r h' res' htagb his hopsq1
          (by rw [← hZ, ← hI, ← hh3]; exact heq)
        rw [hzl] at hstep
        have hq' : nodeOf h' q = { nodeOf h q with lid := lid } := by
          rw [hB q (by omega) hqrest, hn3 q hqh, nodeOf_setLid_self h q lid hqh]
        have hzrest : List.length h ∉ rest := by
          intro hc
          have := hrestN _ hc
          omega
        have hirest : List.length h + 1 ∉ rest := by
          intro hc
          have := hrestN _ hc
          omega
        have hz' : nodeOf h' (List.length h) = Z := by
          rw [hB (List.length h) (by omega) hzrest]
          exact hzval
        have hi' : nodeOf h' (List.length h + 1) = I := by
          rw [hB (List.length h + 1) (by omega) hirest]
          exact hival
        have hlidq : lidOf h' q = lid := by
          unfold lidOf
          rw [hq']
        refine ⟨h', q :: List.length h :: (List.length h + 1) :: res', hstep,
          by omega, ?_, ?_, ?_, ?_, ?_, ?_⟩
        · intro x hx hnx
          have hxq : x ≠ q := fun hc => hnx (hc ▸ List.mem_cons_self _ _)
          have hxr : x ∉ rest := fun hc => hnx (List.mem_cons_of_mem _ hc)
          rw [hB x (by omega) hxr, hn3 x hx, nodeOf_setLid_ne h q lid x hxq]
        · intro x hx
          rw [hF x (by omega)]
          exact eqF3 x hx
        · intro k q' hk
          match k, hk with
          | 0, hk =>
            simp only [List.get?_cons_zero, Option.some.injEq] at hk
            subst hk
            rw [hlidq]
            simp
          | 1, hk =>
            simp only [List.get?_cons_succ, List.get?_cons_zero, Option.some.injEq] at hk
            subst hk
            unfold lidOf
            rw [hz', hZ]
            simp
          | 2, hk =>
            simp only [List.get?_cons_succ, List.get?_cons_zero, Option.some.injEq] at hk
            subst hk
            unfold lidOf
            rw [hi', hI]
            show lid + 2 = lid + (2 : Nat)
            simp
          | (k + 3), hk =>
            simp only [List.get?_cons_succ] at hk
            have := hlid k q' hk
            rw [this]
            push_cast
            ring
        · have hdz : ¬ (List.length h < N) := by omega
          have hdi : ¬ (List.length h + 1 < N) := by omega
          simp [List.filter_cons, hqN, hdz, hdi, hfil]
        · intro x hx htx hix
          rcases List.mem_cons.mp hx with hxq | hxr
          · subst hxq
            refine ⟨0, List.length h, List.length h + 1, rfl, rfl, rfl, hN, by omega, ?_, ?_⟩
            · rw [hz', hZ, hlidq, hopsq]
              rfl
            · rw [hi', hI, hlidq, hopsq, hzl]
              rfl
          · have hxh : x < List.length h := lt_of_lt_of_le (hrestN x hxr) hN
            obtain ⟨ht3, hops3, hisin3⟩ := htrans x hxh
            obtain ⟨k, z, i, hk0, hk1, hk2, hNz, hNi, hznd, hind⟩ :=
              hblk x hxr (by rw [ht3]; exact htx) (by rw [hisin3]; exact hix)
            refine ⟨k + 3, z, i, by simpa using hk0, by simpa using hk1,
              by simpa using hk2, hNz, hNi, ?_, ?_⟩
            · rw [hznd, hops3]
            · rw [hind, hops3]
        · intro q0 hq0 hcond
          have hcond3 : ∀ x ∈ rest, tagOf h3 x = "state" → isinB h3 x uninit = true →
              List.headD (nodeOf h3 x).ops Opnd.pyNone ≠ Opnd.ref q0 := by
            intro x hx ht hi
            have hxh : x < List.length h := lt_of_lt_of_le (hrestN x hx) hN
            obtain ⟨ht3, hops3, hisin3⟩ := htrans x hxh
            rw [hops3]
            exact hcond x (List.mem_cons_of_mem _ hx) (by rw [← ht3]; exact ht)
              (by rw [← hisin3]; exact hi)
          have hrec := hcnt q0 hq0 hcond3
          have hPcong : List.countP (fun j => tagOf h3 j == "init"
                && decide (Opnd.ref q0 ∈ (nodeOf h3 j).ops)) rest
              = List.countP (fun j => tagOf h j == "init"
                && decide (Opnd.ref q0 ∈ (nodeOf h j).ops)) rest := by
            apply List.countP_congr
            intro x hx
            obtain ⟨ht3, hops3, _⟩ := htrans x (lt_of_lt_of_le (hrestN x hx) hN)
            rw [ht3, hops3]
          have hQcong : List.countP (fun j => j == q0
                && (tagOf h3 j == "state" && isinB h3 j uninit)) rest
              = List.countP (fun j => j == q0
                && (tagOf h j == "state" && isinB h j uninit)) rest := by
            apply List.countP_congr
            intro x hx
            obtain ⟨ht3, _, hisin3⟩ := htrans x (lt_of_lt_of_le (hrestN x hx) hN)
            rw [ht3, hisin3]
          rw [hPcong, hQcong] at hrec
          have htagq' : tagOf h' q = "state" := by
            unfold tagOf
            rw [hq']
            exact htag
          have hPq : (tagOf h' q == "init") = false := by
            rw [htagq']
            rfl
          have hPz : (tagOf h' (List.length h) == "init") = false := by
            unfold tagOf
            rw [hz', hZ]
            rfl
          have hPi : (tagOf h' (List.length h + 1) == "init") = true := by
            unfold tagOf
            rw [hi', hI]
            rfl
          have hrq0 : Opnd.ref r ≠ Opnd.ref q0 := by
            have := hcond q (List.mem_cons_self _ _) htag his
            rw [hopsq] at this
            simpa using this
          have hopsI : (nodeOf h' (List.length h + 1)).ops
              = [Opnd.ref r, Opnd.ref q, Opnd.ref (List.length h)] := by
            rw [hi', hI]
            simp [hzl]
          have himem : decide (Opnd.ref q0 ∈ (nodeOf h' (List.length h + 1)).ops)
              = decide (q = q0) := by
            rw [hopsI]
            have hA : ¬ (Opnd.ref q0 = Opnd.ref r) := fun hc => hrq0 hc.symm
            have hC : ¬ (Opnd.ref q0 = Opnd.ref (List.length h)) := by
              simp only [ne_eq, Opnd.ref.injEq]
              omega
            simp only [List.mem_cons, List.not_mem_nil, or_false, hA, hC, false_or, or_false,
              Opnd.ref.injEq]
            by_cases hqq : q = q0
            · simp [hqq]
            · have hqq' : ¬ q0 = q := fun hc => hqq hc.symm
              simp [hqq, hqq']
          have hQq : (q == q0 && (tagOf h q == "state" && isinB h q uninit))
              = decide (q = q0) := by
            rw [htagb, his]
            by_cases hqq : q = q0
            · subst hqq
              simp
            · simp [hqq]
          have hPhq : ((fun j => tagOf h j == "init"
              && decide (Opnd.ref q0 ∈ (nodeOf h j).ops)) q) = false := by
            simp only [htag]
            rfl
          simp only [List.countP_cons, hrec, hPq, hPz, hPi, himem, hQq, hPhq,
            Bool.false_and, Bool.and_true, Bool.true_and, Bool.false_eq_true, if_false]
          by_cases hqq : q = q0 <;> simp [hqq] <;> omega
      | false =>
        obtain ⟨h', res', heq, hlen', hB, hF, hlid, hfil, hblk, hcnt⟩ :=
          ih (setLid h q lid) (lid + 1) (by rw [setLid_length]; exact hN) hndr hrestN huN
            (fun x hx ht hi => by
              have hEx := eqFields_setLid h q lid x
              obtain ⟨r', hr'⟩ := hshape x (List.mem_cons_of_mem _ hx)
                (by rw [← tagOf_congr hEx]; exact ht)
                (by rw [← isinB_congr hEx (fun u _ => eqFields_setLid h q lid u)]; exact hi)
              exact ⟨r', by rw [eqFields_ops hEx]; exact hr'⟩)
        have hstep := iasLoop_cons_skip_eq h uninit lid q rest h' res'
          (Or.inr ⟨htagb, his⟩) heq
        have hq' : nodeOf h' q = { nodeOf h q with lid := lid } := by
          rw [hB q (by rw [setLid_length]; exact hqh) hqrest, nodeOf_setLid_self h q lid hqh]
        have hlidq : lidOf h' q = lid := by
          unfold lidOf
          rw [hq']
        refine ⟨h', q :: res', hstep, by rw [setLid_length] at hlen'; exact hlen',
          ?_, ?_, ?_, ?_, ?_, ?_⟩
        · intro x hx hnx
          have hxq : x ≠ q := fun hc => hnx (hc ▸ List.mem_cons_self _ _)
          have hxr : x ∉ rest := fun hc => hnx (List.mem_cons_of_mem _ hc)
          rw [hB x (by rw [setLid_length]; exact hx) hxr, nodeOf_setLid_ne h q lid x hxq]
        · intro x hx
          rw [hF x (by rw [setLid_length]; exact hx)]
          exact eqFields_setLid h q lid x
        · intro k q' hk
          match k, hk with
          | 0, hk =>
            simp only [List.get?_cons_zero, Option.some.injEq] at hk
            subst hk
            rw [hlidq]
            simp
          | (k + 1), hk =>
            simp only [List.get?_cons_succ] at hk
            have := hlid k q' hk
            rw [this]
            push_cast
            ring
        · simp [List.filter_cons, hqN, hfil]
        · intro x hx htx hix
          rcases List.mem_cons.mp hx with hxq | hxr
          · subst hxq
            rw [hix] at his
            exact Bool.noConfusion his
          · have hEx := eqFields_setLid h q lid x
            obtain ⟨k, z, i, hk0, hk1, hk2, hNz, hNi, hznd, hind⟩ :=
              hblk x hxr (by rw [tagOf_congr hEx]; exact htx)
                (by rw [isinB_congr hEx (fun u _ => eqFields_setLid h q lid u)]; exact hix)
            refine ⟨k + 1, z, i, by simpa using hk0, by simpa using hk1,
              by simpa using hk2, hNz, hNi, ?_, ?_⟩
            · rw [hznd, eqFields_ops hEx]
            · rw [hind, eqFields_ops hEx]
        · intro q0 hq0 hcond
          have hcond1 : ∀ x ∈ rest, tagOf (setLid h q lid) x = "state" →
              isinB (setLid h q lid) x uninit = true →
              List.headD (nodeOf (setLid h q lid) x).ops Opnd.pyNone ≠ Opnd.ref q0 := by
            intro x hx ht hi
            have hEx := eqFields_setLid h q lid x
            rw [eqFields_ops hEx]
            exact hcond x (List.mem_cons_of_mem _ hx) (by rw [← tagOf_congr hEx]; exact ht)
              (by rw [← isinB_congr hEx (fun u _ => eqFields_setLid h q lid u)]; exact hi)
          have hrec := hcnt q0 hq0 hcond1
          have hPcong : List.countP (fun j => tagOf (setLid h q lid) j == "init"
                && decide (Opnd.ref q0 ∈ (nodeOf (setLid h q lid) j).ops)) rest
              = List.countP (fun j => tagOf h j == "init"
                && decide (Opnd.ref q0 ∈ (nodeOf h j).ops)) rest := by
            apply List.countP_congr
            intro x _
            have hEx := eqFields_setLid h q lid x
            rw [tagOf_congr hEx, eqFields_ops hEx]
          have hQcong : List.countP (fun j => j == q0
                && (tagOf (setLid h q lid) j == "state" && isinB (setLid h q lid) j uninit)) rest
              = List.countP (fun j => j == q0
                && (tagOf h j == "state" && isinB h j uninit)) rest := by
            apply List.countP_congr
            intro x _
            have hEx := eqFields_setLid h q lid x
            rw [tagOf_congr hEx,
              isinB_congr hEx (fun u _ => eqFields_setLid h q lid u)]
          rw [hPcong, hQcong] at hrec
          have hPq : ((fun j => tagOf h' j == "init"
              && decide (Opnd.ref q0 ∈ (nodeOf h' j).ops)) q)
              = ((fun j => tagOf h j == "init"
              && decide (Opnd.ref q0 ∈ (nodeOf h j).ops)) q) := by
            show (tagOf h' q == "init" && _) = _
            unfold tagOf
            rw [hq']
          have hQq : ((fun j => j == q0
              && (tagOf h j == "state" && isinB h j uninit)) q) = false := by
            show (q == q0 && (tagOf h q == "state" && isinB h q uninit)) = false
            rw [his]
            simp
          simp only [List.countP_cons, hrec, hPq, hQq, Bool.false_eq_true, if_false]
          omega
    · have htagb : (tagOf h q == "state") = false := by simp [htag]
      obtain ⟨h', res', heq, hlen', hB, hF, hlid, hfil, hblk, hcnt⟩ :=
        ih (setLid h q lid) (lid + 1) (by rw [setLid_length]; exact hN) hndr hrestN huN
          (fun x hx ht hi => by
            have hEx := eqFields_setLid h q lid x
            obtain ⟨r', hr'⟩ := hshape x (List.mem_cons_of_mem _ hx)
              (by rw [← tagOf_congr hEx]; exact ht)
              (by rw [← isinB_congr hEx (fun u _ => eqFields_setLid h q lid u)]; exact hi)
            exact ⟨r', by rw [eqFields_ops hEx]; exact hr'⟩)
      have hstep := iasLoop_cons_skip_eq h uninit lid q rest h' res' (Or.inl htagb) heq
      have hq' : nodeOf h' q = { nodeOf h q with lid := lid } := by
        rw [hB q (by rw [setLid_length]; exact hqh) hqrest, nodeOf_setLid_self h q lid hqh]
      have hlidq : lidOf h' q = lid := by
        unfold lidOf
        rw [hq']
      refine ⟨h', q :: res', hstep, by rw [setLid_length] at hlen'; exact hlen',
        ?_, ?_, ?_, ?_, ?_, ?_⟩
      · intro x hx hnx
        have hxq : x ≠ q := fun hc => hnx (hc ▸ List.mem_cons_self _ _)
        have hxr : x ∉ rest := fun hc => hnx (List.mem_cons_of_mem _ hc)
        rw [hB x (by rw [setLid_length]; exact hx) hxr, nodeOf_setLid_ne h q lid x hxq]
      · intro x hx
        rw [hF x (by rw [setLid_length]; exact hx)]
        exact eqFields_setLid h q lid x
      · intro k q' hk
        match k, hk with
        | 0, hk =>
          simp only [List.get?_cons_zero, Option.some.injEq] at hk
          subst hk
          rw [hlidq]
          simp
        | (k + 1), hk =>
          simp only [List.get?_cons_succ] at hk
          have := hlid k q' hk
          rw [this]
          push_cast
          ring
      · simp [List.filter_cons, hqN, hfil]
      · intro x hx htx hix
        rcases List.mem_cons.mp hx with hxq | hxr
        · subst hxq
          exact absurd htx htag
        · have hEx := eqFields_setLid h q lid x
          obtain ⟨k, z, i, hk0, hk1, hk2, hNz, hNi, hznd, hind⟩ :=
            hblk x hxr (by rw [tagOf_congr hEx]; exact htx)
              (by rw [isinB_congr hEx (fun u _ => eqFields_setLid h q lid u)]; exact hix)
          refine ⟨k + 1, z, i, by simpa using hk0, by simpa using hk1,
            by simpa using hk2, hNz, hNi, ?_, ?_⟩
          · rw [hznd, eqFields_ops hEx]
          · rw [hind, eqFields_ops hEx]
      · intro q0 hq0 hcond
        have hcond1 : ∀ x ∈ rest, tagOf (setLid h q lid) x = "state" →
            isinB (setLid h q lid) x uninit = true →
            List.headD (nodeOf (setLid h q lid) x).ops Opnd.pyNone ≠ Opnd.ref q0 := by
          intro x hx ht hi
          have hEx := eqFields_setLid h q lid x
          rw [eqFields_ops hEx]
          exact hcond x (List.mem_cons_of_mem _ hx) (by rw [← tagOf_congr hEx]; exact ht)
            (by rw [← isinB_congr hEx (fun u _ => eqFields_setLid h q lid u)]; exact hi)
        have hrec := hcnt q0 hq0 hcond1
        have hPcong : List.countP (fun j => tagOf (setLid h q lid) j == "init"
              && decide (Opnd.ref q0 ∈ (nodeOf (setLid h q lid) j).ops)) rest
            = List.countP (fun j => tagOf h j == "init"
              && decide (Opnd.ref q0 ∈ (nodeOf h j).ops)) rest := by
          apply List.countP_congr
          intro x _
          have hEx := eqFields_setLid h q lid x
          rw [tagOf_congr hEx, eqFields_ops hEx]
        have hQcong : List.countP (fun j => j == q0
              && (tagOf (setLid h q lid) j == "state" && isinB (setLid h q lid) j uninit)) rest
            = List.countP (fun j => j == q0
              && (tagOf h j == "state" && isinB h j uninit)) rest := by
          apply List.countP_congr
          intro x _
          have hEx := eqFields_setLid h q lid x
          rw [tagOf_congr hEx,
            isinB_congr hEx (fun u _ => eqFields_setLid h q lid u)]
        rw [hPcong, hQcong] at hrec
        have hPq : ((fun j => tagOf h' j == "init"
            && decide (Opnd.ref q0 ∈ (nodeOf h' j).ops)) q)
            = ((fun j => tagOf h j == "init"
            && decide (Opnd.ref q0 ∈ (nodeOf h j).ops)) q) := by
          show (tagOf h' q == "init" && _) = _
          unfold tagOf
          rw [hq']
        have hQq : ((fun j => j == q0
            && (tagOf h j == "state" && isinB h j uninit)) q) = false := by
          show (q == q0 && (tagOf h q == "state" && isinB h q uninit)) = false
          rw [htagb]
          simp
        simp only [List.countP_cons, hrec, hPq, hQq, Bool.false_eq_true, if_false]
        omega

/-- On a separated list, `isin` is membership. -/
theorem isinB_eq_mem (h : Heap) (s : Nat) (l : List Nat)
    (hsep : ∀ r ∈ l, eqNode (nodeOf h s) (nodeOf h r) = (s == r)) :
    isinB h s l = decide (s ∈ l) := by
  unfold isinB
  induction l with
  | nil => simp
  | cons r rest ih =>
    simp only [List.any_cons, hsep r (List.mem_cons_self _ _), List.mem_cons]
    rw [ih (fun u hu => hsep u (List.mem_cons_of_mem _ hu))]
    by_cases hrs : s = r
    · subst hrs
      simp
    · have h1 : (s == r) = false := by simp [hrs]
      simp [h1, hrs]

theorem isinB_of_mem (h : Heap) (s : Nat) (l : List Nat) (hs : s ∈ l) :
    isinB h s l = true := by
  unfold isinB
  rw [List.any_eq_true]
  exact ⟨s, hs, eqNode_refl _⟩

/-- A `(j == q) && C j` count over a duplicate-free list with `q` a member
and `C q` true is exactly one. -/
theorem countP_beq_of_nodup (p : List Nat) (q : Nat) (C : Nat → Bool)
    (hnd : List.Nodup p) (hq : q ∈ p) (hC : C q = true) :
    List.countP (fun j => (j == q) && C j) p = 1 := by
  induction p with
  | nil => cases hq
  | cons a t ih =>
    have hnda : a ∉ t := (List.nodup_cons.mp hnd).1
    have hndt : List.Nodup t := (List.nodup_cons.mp hnd).2
    by_cases haq : a = q
    · subst haq
      have hz : List.countP (fun j => (j == a) && C j) t = 0 := by
        rw [List.countP_eq_zero]
        intro x hx
        have hxa : ¬ (x = a) := fun hc => hnda (hc ▸ hx)
        simp [hxa]
      simp [List.countP_cons, hz, hC]
    · have hqt : q ∈ t := by
        rcases List.mem_cons.mp hq with hc | hc
        · exact absurd hc.symm haq
        · exact hc
      have hpa : ((a == q) && C a) = false := by
        simp [haq]
      simp [List.countP_cons, hpa, ih hndt hqt]

/-- Pointwise consecutive lids give the range form. -/
theorem map_lid_of_pointwise (h' : Heap) (res : List Nat) (a : Int)
    (hp : ∀ k q', List.get? res k = some q' → lidOf h' q' = a + (k : Int)) :
    List.map (lidOf h') res
      = List.map (fun (k : Nat) => a + (k : Int)) (List.range (List.length res)) := by
  apply List.ext_getElem?
  intro n
  simp only [List.getElem?_map]
  by_cases hn : n < List.length res
  · rw [List.getElem?_range hn]
    cases hres : res[n]? with
    | none =>
      rw [List.getElem?_eq_none_iff] at hres
      omega
    | some q' =>
      have := hp n q' (by rw [List.get?_eq_getElem?]; exact hres)
      simp [this]
  · have h1 : res[n]? = none := by
      rw [List.getElem?_eq_none_iff]
      omega
    have h2 : (List.range (List.length res))[n]? = none := by
      rw [List.getElem?_eq_none_iff]
      simp
      omega
    rw [h1, h2]
    rfl

theorem mem_allTargets_of_mem (h : Heap) (p : List Nat) (q : Nat) (hq : q ∈ p) :
    q ∈ allTargets h p := by
  unfold allTargets
  rw [List.append_eq, List.mem_append]
  exact Or.inl hq

theorem mem_allTargets_of_ops (h : Heap) (p : List Nat) (op r : Nat)
    (hop : op ∈ p) (hr : Opnd.ref r ∈ (nodeOf h op).ops) :
    r ∈ allTargets h p := by
  unfold allTargets
  rw [List.append_eq, List.mem_append]
  right
  rw [List.mem_flatMap]
  exact ⟨op, hop, by rw [List.mem_filterMap]; exact ⟨Opnd.ref r, hr, rfl⟩⟩

/-- Claim C6 (corrected): on a well-formed instruction sequence (distinct
objects with valid reference-only operand lists, each State carrying a
single sort operand, structurally-distinguishable states, at most one
Init per State), after InitAllStates the lids of the result are the
contiguous range 1..len in order, the original instructions are
preserved in order, every State that lacked a reaching Init is
immediately followed by a synthesized zero-valued Constd of its sort and
an Init referencing the state and that constant, and every State has
exactly one Init referencing it — but a pre-existing Init keeps its
original, possibly nonzero, value, which is what the claim missed. -/
theorem claim_C6_amended (h : Heap) (p : List Nat) (hwf : iasWF h p = true) :
    ∃ h' res, init_all_states_run h p = .ok (h', res)
      ∧ List.map (lidOf h') res
          = List.map (fun (k : Nat) => 1 + (k : Int)) (List.range (List.length res))
      ∧ List.filter (fun x => decide (x < List.length h)) res = p
      ∧ (∀ q ∈ p, tagOf h q = "state" → hasInitIn h p q = false →
          ∃ k z i, List.get? res k = some q ∧ List.get? res (k+1) = some z
            ∧ List.get? res (k+2) = some i
            ∧ nodeOf h' z
                = { lid := lidOf h' q + 1, tag := "constd",
                    ops := [List.headD (nodeOf h q).ops Opnd.pyNone], value := 0 }
            ∧ nodeOf h' i
                = { lid := lidOf h' q + 2, tag := "init",
                    ops := [List.headD (nodeOf h q).ops Opnd.pyNone, Opnd.ref q,
                      Opnd.ref z] })
      ∧ (∀ q ∈ p, tagOf h q = "state" →
          List.length (initsReferencing h' res q) = 1) := by
  unfold iasWF at hwf
  simp only [Bool.and_eq_true, List.all_eq_true, decide_eq_true_eq] at hwf
  obtain ⟨⟨⟨⟨⟨hnd, hvalid⟩, hops⟩, hshape0⟩, hsep0⟩, hone0⟩ := hwf
  have hshape : ∀ q ∈ p, tagOf h q = "state" →
      ∃ r, (nodeOf h q).ops = [Opnd.ref r] ∧ tagOf h r = "sort" := by
    intro q hq ht
    have hb := hshape0 q hq
    rw [ht] at hb
    simp only [bne_self_eq_false, Bool.false_or] at hb
    cases hcase : (nodeOf h q).ops with
    | nil =>
      rw [hcase] at hb
      simp at hb
    | cons o rest =>
      cases o with
      | ref r =>
        cases rest with
        | nil =>
          rw [hcase] at hb
          exact ⟨r, rfl, by simpa using hb⟩
        | cons o2 rest2 =>
          rw [hcase] at hb
          simp at hb
      | intLit n =>
        rw [hcase] at hb
        simp at hb
      | strLit t =>
        rw [hcase] at hb
        simp at hb
      | pyNone =>
        rw [hcase] at hb
        simp at hb
  have hsep : ∀ s, s ∈ p → tagOf h s = "state" →
      ∀ r ∈ allTargets h p, eqNode (nodeOf h s) (nodeOf h r) = (s == r) := by
    intro s hs ht r hr
    unfold sepOK at hsep0
    simp only [List.all_eq_true] at hsep0
    have hsmem : s ∈ List.filter (fun q => tagOf h q == "state") p := by
      rw [List.mem_filter]
      exact ⟨hs, by simp [ht]⟩
    have := hsep0 s hsmem r hr
    simpa using this
  have hone : ∀ s ∈ p, tagOf h s = "state" →
      List.countP (fun j => tagOf h j == "init"
        && decide (Opnd.ref s ∈ (nodeOf h j).ops)) p ≤ 1 := by
    intro s hs ht
    have hb := hone0 s hs
    rw [ht] at hb
    simpa using hb
  have hsepP : ∀ s ∈ p, tagOf h s = "state" → ∀ op ∈ p, ∀ r,
      Opnd.ref r ∈ (nodeOf h op).ops → eqNode (nodeOf h s) (nodeOf h r) = (s == r) := by
    intro s hs ht op hop r hr
    exact hsep s hs ht r (mem_allTargets_of_ops h p op r hop hr)
  have hU := uninitStates_ok h p hops hsepP
  have hUsub : ∀ r ∈ uninitList h p, r ∈ p := by
    intro r hr
    unfold uninitList at hr
    exact (List.mem_filter.mp (List.mem_filter.mp hr).1).1
  have hUN : ∀ r ∈ uninitList h p, r < List.length h := fun r hr => hvalid r (hUsub r hr)
  have hmemU : ∀ q, q ∈ uninitList h p
      ↔ (q ∈ p ∧ tagOf h q = "state" ∧ hasInitIn h p q = false) := by
    intro q
    unfold uninitList
    rw [List.mem_filter, List.mem_filter]
    constructor
    · rintro ⟨⟨h1, h2⟩, h3⟩
      exact ⟨h1, by simpa using h2, by simpa using h3⟩
    · rintro ⟨h1, h2, h3⟩
      exact ⟨⟨h1, by simp [h2]⟩, by simp [h3]⟩
  have hisinU : ∀ q ∈ p, tagOf h q = "state" →
      isinB h q (uninitList h p) = decide (q ∈ uninitList h p) := by
    intro q hq ht
    apply isinB_eq_mem
    intro r hr
    exact hsep q hq ht r (mem_allTargets_of_mem h p r (hUsub r hr))
  obtain ⟨h', res, heq, hlen', hB, hF, hlid, hfil, hblk, hcnt⟩ :=
    iasLoop_spec (uninitList h p) (List.length h) p h 1 (le_refl _) hnd hvalid hUN
      (fun q hq ht _ => by
        obtain ⟨r, hr, _⟩ := hshape q hq ht
        exact ⟨r, hr⟩)
  refine ⟨h', res, ?_, map_lid_of_pointwise h' res 1 hlid, hfil, ?_, ?_⟩
  · unfold init_all_states_run
    rw [hU, ok_bind]
    exact heq
  · intro q hq ht hnoinit
    have hqmem : q ∈ uninitList h p := (hmemU q).mpr ⟨hq, ht, hnoinit⟩
    have hisin : isinB h q (uninitList h p) = true := isinB_of_mem h q _ hqmem
    obtain ⟨k, z, i, hk0, hk1, hk2, _, _, hz, hi⟩ := hblk q hq ht hisin
    exact ⟨k, z, i, hk0, hk1, hk2, hz, hi⟩
  · intro q hq ht
    have hq0 : q < List.length h := hvalid q hq
    have hcond : ∀ x ∈ p, tagOf h x = "state" → isinB h x (uninitList h p) = true →
        List.headD (nodeOf h x).ops Opnd.pyNone ≠ Opnd.ref q := by
      intro x hx htx _
      obtain ⟨r, hrops, hrsort⟩ := hshape x hx htx
      rw [hrops]
      intro hc
      simp only [List.headD_cons, Opnd.ref.injEq] at hc
      rw [hc] at hrsort
      exact absurd (hrsort.symm.trans ht) (by decide)
    have hcount := hcnt q hq0 hcond
    unfold initsReferencing
    rw [← List.countP_eq_length_filter, hcount]
    cases hInit : hasInitIn h p q with
    | true =>
      have hQ0 : List.countP (fun j => j == q
          && (tagOf h j == "state" && isinB h j (uninitList h p))) p = 0 := by
        rw [List.countP_eq_zero]
        intro x hx
        by_cases hxq : x = q
        · subst hxq
          have hnm : decide (x ∈ uninitList h p) = false := by
            simp only [decide_eq_false_iff_not]
            intro hc
            have hfin := ((hmemU x).mp hc).2.2
            rw [hInit] at hfin
            cases hfin
          simp [hisinU x hx ht, hnm]
        · have hbx : (x == q) = false := by simp [hxq]
          simp [hbx]
      have hpos : 0 < List.countP (fun j => tagOf h j == "init"
          && decide (Opnd.ref q ∈ (nodeOf h j).ops)) p := by
        rw [List.countP_pos_iff]
        unfold hasInitIn at hInit
        obtain ⟨x, hx, hxp⟩ := List.any_eq_true.mp hInit
        exact ⟨x, hx, hxp⟩
      have hle := hone q hq ht
      omega
    | false =>
      have hP0 : List.countP (fun j => tagOf h j == "init"
          && decide (Opnd.ref q ∈ (nodeOf h j).ops)) p = 0 := by
        rw [List.countP_eq_zero]
        intro x hx
        unfold hasInitIn at hInit
        have hall : ∀ x ∈ p, ¬ (tagOf h x == "init"
            && decide (Opnd.ref q ∈ (nodeOf h x).ops)) = true := by
          intro y hy
          intro hc
          have : List.any p (fun op => tagOf h op == "init"
              && decide (Opnd.ref q ∈ (nodeOf h op).ops)) = true := by
            rw [List.any_eq_true]
            exact ⟨y, hy, hc⟩
          rw [hInit] at this
          cases this
        exact hall x hx
      have hQ1 : List.countP (fun j => j == q
          && (tagOf h j == "state" && isinB h j (uninitList h p))) p = 1 := by
        apply countP_beq_of_nodup p q _ hnd hq
        rw [hisinU q hq ht]
        have hm : q ∈ uninitList h p := (hmemU q).mpr ⟨hq, ht, hInit⟩
        simp [ht, hm]
      rw [hP0, hQ1]

/-- Witness for the amended claim C6: the well-formedness hypothesis holds
on the concrete program with one uninitialized state (`hC6w`), and the
theorem applies to it. -/
theorem claim_C6_amended_witness :
    iasWF hC6w [0, 1, 2] = true
    ∧ (∃ h' res, init_all_states_run hC6w [0, 1, 2] = .ok (h', res)
      ∧ List.map (lidOf h') res
          = List.map (fun (k : Nat) => 1 + (k : Int)) (List.range (List.length res))
      ∧ List.filter (fun x => decide (x < List.length hC6w)) res = [0, 1, 2]
      ∧ (∀ q ∈ [0, 1, 2], tagOf hC6w q = "state" →
            hasInitIn hC6w [0, 1, 2] q = false →
          ∃ k z i, List.get? res k = some q ∧ List.get? res (k+1) = some z
            ∧ List.get? res (k+2) = some i
            ∧ nodeOf h' z
                = { lid := lidOf h' q + 1, tag := "constd",
                    ops := [List.headD (nodeOf hC6w q).ops Opnd.pyNone], value := 0 }
            ∧ nodeOf h' i
                = { lid := lidOf h' q + 2, tag := "init",
                    ops := [List.headD (nodeOf hC6w q).ops Opnd.pyNone, Opnd.ref q,
                      Opnd.ref z] })
      ∧ (∀ q ∈ [0, 1, 2], tagOf hC6w q = "state" →
          List.length (initsReferencing h' res q) = 1)) :=
  ⟨by decide, claim_C6_amended hC6w [0, 1, 2] (by decide)⟩
